import Mathlib

/-!
Shallow embedding of the ruschess core engine (src/core/src/*.rs).

Conventions of the embedding:
* A `Position` is its flat `u8` payload, modelled as a `Nat` (`rank*8 + file`);
  the `u8`-cast arithmetic of the Rust pawn offsets is modelled with explicit
  `% 256`.
* A `Board` is the list of 64 optional pieces; `boardGet`/`boardSet` return
  `Option` results where the Rust array indexing would panic out of range.
* Every Rust function that can panic (`unwrap`, array indexing out of bounds)
  is embedded as an `Option`/`Except`-returning function, `none`/`.error`
  standing for the panic.
-/

inductive PieceKind where
  | Pawn
  | Knight
  | Bishop
  | Rook
  | Queen
  | King
deriving DecidableEq

inductive PieceColor where
  | Black
  | White
deriving DecidableEq

def PieceColor.opposite : PieceColor → PieceColor
  | .Black => .White
  | .White => .Black

structure Piece where
  kind : PieceKind
  color : PieceColor
deriving DecidableEq

def Square := Option Piece
deriving DecidableEq

def Board := List (Option Piece)
deriving DecidableEq

def Board.empty : Board := List.replicate 64 none

/-- `Board::get` (array indexing by the flat position): `none` models the
Rust panic on an out-of-range index, `some sq` the square's content. -/
def boardGet (b : Board) (n : Nat) : Option (Option Piece) :=
  List.get? b n

/-- `Board::set`: `none` models the Rust panic on an out-of-range index. -/
def boardSet (b : Board) (n : Nat) (sq : Option Piece) : Option Board :=
  if n < List.length b then some (List.set b n sq) else none

/-- `Board::find_king`: first index holding a king of the given color. -/
def findKingAux (l : List (Option Piece)) (i : Nat) (c : PieceColor) : Option Nat :=
  match l with
  | [] => none
  | sq :: rest =>
    match sq with
    | some p =>
      if p.kind = PieceKind.King ∧ p.color = c then some i
      else findKingAux rest (i + 1) c
    | none => findKingAux rest (i + 1) c

def Board.findKing (b : Board) (c : PieceColor) : Option Nat :=
  findKingAux b 0 c

inductive Move where
  | Normal (src dst : Nat)
  | Capture (src dst : Nat) (captured : Piece)
  | EnPassant (src dst captured : Nat)
  | DoublePawnPush (src dst enPassantTarget : Nat)
  | Promotion (src dst : Nat) (promoted : Piece)
  | PromotionCapture (src dst : Nat) (captured promoted : Piece)
  | Castle (src dst rookFrom rookTo : Nat)
deriving DecidableEq

/-- `Move::from`. -/
def Move.fromPos : Move → Nat
  | .Normal s _ => s
  | .Capture s _ _ => s
  | .EnPassant s _ _ => s
  | .DoublePawnPush s _ _ => s
  | .Promotion s _ _ => s
  | .PromotionCapture s _ _ _ => s
  | .Castle s _ _ _ => s

/-- `Move::to`. -/
def Move.toPos : Move → Nat
  | .Normal _ t => t
  | .Capture _ t _ => t
  | .EnPassant _ t _ => t
  | .DoublePawnPush _ t _ => t
  | .Promotion _ t _ => t
  | .PromotionCapture _ t _ _ => t
  | .Castle _ t _ _ => t

inductive CastleSide where
  | KingSide
  | QueenSide
deriving DecidableEq

structure GameState where
  board : Board
  turn : PieceColor
  castling_rights : Nat
  en_passant : Option Nat
  halfmove_clock : Nat
  fullmove_number : Nat
  captured_pieces : List Piece
deriving DecidableEq

def castleMask (color : PieceColor) (side : CastleSide) : Nat :=
  match color, side with
  | .White, .KingSide => 8
  | .White, .QueenSide => 4
  | .Black, .KingSide => 2
  | .Black, .QueenSide => 1

/-- `GameState::can_castle`. -/
def canCastle (s : GameState) (color : PieceColor) (side : CastleSide) : Bool :=
  decide (s.castling_rights &&& castleMask color side ≠ 0)

/-- `GameState::unset_castle` (`rights &= !mask` on `u8`). -/
def unsetCastle (s : GameState) (color : PieceColor) (side : CastleSide) : GameState :=
  { s with castling_rights := s.castling_rights &&& (255 - castleMask color side) }

def GameState.empty : GameState :=
  { board := Board.empty
    turn := .White
    castling_rights := 0
    en_passant := none
    halfmove_clock := 0
    fullmove_number := 1
    captured_pieces := [] }

/-! ## Move generation (src/core/src/moves.rs) -/

structure PawnMoveInfo where
  color : PieceColor
  start_rank : Nat
  promotion_rank : Nat
  push_offset : Int
  double_push_offset : Int

def PawnMoveInfo.new : PieceColor → PawnMoveInfo
  | .White => ⟨.White, 1, 7, 8, 16⟩
  | .Black => ⟨.Black, 6, 0, -8, -16⟩

/-- The `(... as i8 + off) as u8` cast arithmetic of the pawn offsets. -/
def pawnCast (x : Int) : Nat := (Int.emod x 256).toNat

def PawnMoveInfo.push (info : PawnMoveInfo) (p : Nat) : Nat :=
  pawnCast ((p : Int) + info.push_offset)

def PawnMoveInfo.doublePush (info : PawnMoveInfo) (p : Nat) : Nat :=
  pawnCast ((p : Int) + info.double_push_offset)

def PawnMoveInfo.leftCapture (info : PawnMoveInfo) (p : Nat) : Nat :=
  pawnCast ((p : Int) + info.push_offset - 1)

def PawnMoveInfo.rightCapture (info : PawnMoveInfo) (p : Nat) : Nat :=
  pawnCast ((p : Int) + info.push_offset + 1)

def PawnMoveInfo.leftEnPassant (_info : PawnMoveInfo) (p : Nat) : Nat := p - 1

def PawnMoveInfo.rightEnPassant (_info : PawnMoveInfo) (p : Nat) : Nat := p + 1

/-- `add_move_if_valid`: returns the moves pushed and the Rust `bool`
result (`true` when the target square was occupied, stopping a ray). -/
def addMoveIfValid (target : Nat) (center : Nat) (s : GameState) (color : PieceColor) :
    Option (List Move × Bool) :=
  match boardGet s.board target with
  | none => none
  | some (some piece) =>
    some (if piece.color ≠ color then [Move.Capture center target piece] else [], true)
  | some none => some ([Move.Normal center target], false)

/-- One `for i in 1..=steps { if add_move_if_valid(..) { break } }` ray loop,
with the successive target squares given as a list. -/
def rayCast (s : GameState) (color : PieceColor) (center : Nat) :
    List Nat → Option (List Move)
  | [] => some []
  | t :: ts =>
    match addMoveIfValid t center s color with
    | none => none
    | some (ms, true) => some ms
    | some (ms, false) =>
      match rayCast s color center ts with
      | none => none
      | some rest => some (ms ++ rest)

def tlTargets (center : Nat) : List Nat :=
  (List.range (min (center / 8) (center % 8))).map (fun i => center - 9 * (i + 1))

def trTargets (center : Nat) : List Nat :=
  (List.range (min (center / 8) (7 - center % 8))).map (fun i => center - 7 * (i + 1))

def blTargets (center : Nat) : List Nat :=
  (List.range (min (7 - center / 8) (center % 8))).map (fun i => center + 7 * (i + 1))

def brTargets (center : Nat) : List Nat :=
  (List.range (min (7 - center / 8) (7 - center % 8))).map (fun i => center + 9 * (i + 1))

/-- `make_bischop_moves`. -/
def makeBischopMoves (center : Nat) (s : GameState) (color : PieceColor) :
    Option (List Move) :=
  match rayCast s color center (tlTargets center) with
  | none => none
  | some tl =>
    match rayCast s color center (trTargets center) with
    | none => none
    | some tr =>
      match rayCast s color center (blTargets center) with
      | none => none
      | some bl =>
        match rayCast s color center (brTargets center) with
        | none => none
        | some br => some (tl ++ tr ++ bl ++ br)

def upTargets (center : Nat) : List Nat :=
  (List.range (8 - (center / 8 + 1))).map (fun i => (center / 8 + 1 + i) * 8 + center % 8)

def downTargets (center : Nat) : List Nat :=
  (List.range (center / 8)).map (fun i => (center / 8 - 1 - i) * 8 + center % 8)

def rightTargets (center : Nat) : List Nat :=
  (List.range (8 - (center % 8 + 1))).map (fun i => (center / 8) * 8 + (center % 8 + 1 + i))

def leftTargets (center : Nat) : List Nat :=
  (List.range (center % 8)).map (fun i => (center / 8) * 8 + (center % 8 - 1 - i))

/-- `make_rook_moves`. -/
def makeRookMoves (center : Nat) (s : GameState) (color : PieceColor) :
    Option (List Move) :=
  match rayCast s color center (upTargets center) with
  | none => none
  | some up =>
    match rayCast s color center (downTargets center) with
    | none => none
    | some down =>
      match rayCast s color center (rightTargets center) with
      | none => none
      | some right =>
        match rayCast s color center (leftTargets center) with
        | none => none
        | some left => some (up ++ down ++ right ++ left)

/-- `make_queen_moves`. -/
def makeQueenMoves (center : Nat) (s : GameState) (color : PieceColor) :
    Option (List Move) :=
  match makeBischopMoves center s color with
  | none => none
  | some b =>
    match makeRookMoves center s color with
    | none => none
    | some r => some (b ++ r)

/-- One guarded `add_move_if_valid` call of the knight/king tables (the Rust
code ignores the returned `bool` there). -/
def addIf (cond : Bool) (target : Nat) (center : Nat) (s : GameState)
    (color : PieceColor) : Option (List Move) :=
  if cond then
    match addMoveIfValid target center s color with
    | none => none
    | some (ms, _) => some ms
  else some []

def optCat (a b : Option (List Move)) : Option (List Move) :=
  match a, b with
  | some x, some y => some (x ++ y)
  | _, _ => none

/-- `make_knight_moves`. -/
def makeKnightMoves (center : Nat) (s : GameState) (color : PieceColor) :
    Option (List Move) :=
  let r := center / 8
  let f := center % 8
  optCat (addIf (decide (1 < r ∧ 0 < f)) (center - 17) center s color)
  (optCat (addIf (decide (1 < r ∧ f < 7)) (center - 15) center s color)
  (optCat (addIf (decide (0 < r ∧ 1 < f)) (center - 10) center s color)
  (optCat (addIf (decide (0 < r ∧ f < 6)) (center - 6) center s color)
  (optCat (addIf (decide (r < 6 ∧ 0 < f)) (center + 15) center s color)
  (optCat (addIf (decide (r < 6 ∧ f < 7)) (center + 17) center s color)
  (optCat (addIf (decide (r < 7 ∧ 1 < f)) (center + 6) center s color)
          (addIf (decide (r < 7 ∧ f < 6)) (center + 10) center s color)))))))

/-- `make_king_moves`. -/
def makeKingMoves (center : Nat) (s : GameState) (color : PieceColor) :
    Option (List Move) :=
  let r := center / 8
  let f := center % 8
  optCat (addIf (decide (0 < f ∧ 0 < r)) (center - 9) center s color)
  (optCat (addIf (decide (0 < f ∧ r < 7)) (center + 7) center s color)
  (optCat (addIf (decide (0 < f)) (center - 1) center s color)
  (optCat (addIf (decide (f < 7 ∧ 0 < r)) (center - 7) center s color)
  (optCat (addIf (decide (f < 7 ∧ r < 7)) (center + 9) center s color)
  (optCat (addIf (decide (f < 7)) (center + 1) center s color)
  (optCat (addIf (decide (0 < r)) (center - 8) center s color)
          (addIf (decide (r < 7)) (center + 8) center s color)))))))

/-- `make_pawn_promotions`. -/
def makePawnPromotions (src dst : Nat) (color : PieceColor) : List Move :=
  [Move.Promotion src dst ⟨.Queen, color⟩,
   Move.Promotion src dst ⟨.Rook, color⟩,
   Move.Promotion src dst ⟨.Bishop, color⟩,
   Move.Promotion src dst ⟨.Knight, color⟩]

/-- `make_pawn_promotion_captures`. -/
def makePawnPromotionCaptures (src dst : Nat) (captured : Piece) (color : PieceColor) :
    List Move :=
  [Move.PromotionCapture src dst captured ⟨.Queen, color⟩,
   Move.PromotionCapture src dst captured ⟨.Rook, color⟩,
   Move.PromotionCapture src dst captured ⟨.Bishop, color⟩,
   Move.PromotionCapture src dst captured ⟨.Knight, color⟩]

/-- `make_pawn_pushes`. -/
def makePawnPushes (center : Nat) (s : GameState) (info : PawnMoveInfo) :
    Option (List Move) :=
  let push := info.push center
  match boardGet s.board push with
  | none => none
  | some (some _) => some []
  | some none =>
    let dblPart : Option (List Move) :=
      if center / 8 = info.start_rank then
        let dp := info.doublePush center
        match boardGet s.board dp with
        | none => none
        | some none => some [Move.DoublePawnPush center dp push]
        | some (some _) => some []
      else some []
    match dblPart with
    | none => none
    | some dbl =>
      let single :=
        if push / 8 = info.promotion_rank then makePawnPromotions center push info.color
        else [Move.Normal center push]
      some (dbl ++ single)

/-- One side (left or right) of `make_pawn_captures`. -/
def pawnCaptureSide (center : Nat) (s : GameState) (info : PawnMoveInfo)
    (guard : Bool) (target : Nat) (epCaptured : Nat) : Option (List Move) :=
  if guard then
    match boardGet s.board target with
    | none => none
    | some (some piece) =>
      some (if piece.color ≠ info.color then
              (if target / 8 = info.promotion_rank then
                 makePawnPromotionCaptures center target piece info.color
               else [Move.Capture center target piece])
            else [])
    | some none =>
      some (match s.en_passant with
            | some ep => if ep = target then [Move.EnPassant center target epCaptured] else []
            | none => [])
  else some []

/-- `make_pawn_captures`. -/
def makePawnCaptures (center : Nat) (s : GameState) (info : PawnMoveInfo) :
    Option (List Move) :=
  optCat
    (pawnCaptureSide center s info (decide (0 < center % 8))
      (info.leftCapture center) (info.leftEnPassant center))
    (pawnCaptureSide center s info (decide (center % 8 < 7))
      (info.rightCapture center) (info.rightEnPassant center))

/-- `make_pawn_moves`. -/
def makePawnMoves (center : Nat) (s : GameState) (info : PawnMoveInfo) :
    Option (List Move) :=
  optCat (makePawnPushes center s info) (makePawnCaptures center s info)

/-- `make_castle_moves`, faithfully including its use of rank-0 squares for
both colors and of `state.turn`'s rights for the queenside test. -/
def makeCastleMoves (s : GameState) (color : PieceColor) : Option (List Move) :=
  let king : Nat := if color = PieceColor.White then 0 * 8 + 4 else 7 * 8 + 4
  let ksPart : Option (List Move) :=
    if canCastle s color .KingSide then
      match boardGet s.board (0 * 8 + 5) with
      | none => none
      | some (some _) => some []
      | some none =>
        match boardGet s.board (0 * 8 + 6) with
        | none => none
        | some (some _) => some []
        | some none => some [Move.Castle king (0 * 8 + 6) (0 * 8 + 7) (0 * 8 + 5)]
    else some []
  let qsPart : Option (List Move) :=
    if canCastle s s.turn .QueenSide then
      match boardGet s.board (0 * 8 + 3) with
      | none => none
      | some (some _) => some []
      | some none =>
        match boardGet s.board (0 * 8 + 2) with
        | none => none
        | some (some _) => some []
        | some none =>
          match boardGet s.board (0 * 8 + 1) with
          | none => none
          | some (some _) => some []
          | some none => some [Move.Castle king (0 * 8 + 2) (0 * 8 + 0) (0 * 8 + 3)]
    else some []
  optCat ksPart qsPart

/-- `get_moves_for_square`. -/
def getMovesForSquare (square : Option Piece) (position : Nat) (s : GameState)
    (color : PieceColor) : Option (List Move) :=
  match square with
  | none => some []
  | some piece =>
    if piece.color ≠ color then some []
    else
      match piece.kind with
      | .Pawn => makePawnMoves position s (PawnMoveInfo.new color)
      | .Knight => makeKnightMoves position s color
      | .Bishop => makeBischopMoves position s color
      | .Rook => makeRookMoves position s color
      | .Queen => makeQueenMoves position s color
      | .King => makeKingMoves position s color

/-- The enumerated iteration of `get_moves` over the board's squares. -/
def getMovesAux (s : GameState) (color : PieceColor) :
    List (Option Piece) → Nat → Option (List Move)
  | [], _ => some []
  | sq :: rest, i =>
    match getMovesForSquare sq i s color with
    | none => none
    | some ms =>
      match getMovesAux s color rest (i + 1) with
      | none => none
      | some more => some (ms ++ more)

/-- `get_moves`. -/
def getMoves (s : GameState) (color : PieceColor) : Option (List Move) :=
  match getMovesAux s color s.board 0 with
  | none => none
  | some base =>
    match makeCastleMoves s color with
    | none => none
    | some castles => some (base ++ castles)

/-! ## Check detection and move application (src/core/src/state.rs) -/

/-- `GameState::is_in_check`; `none` models the panic of
`find_king(..).unwrap()` (no king) or of move generation. -/
def isInCheck (s : GameState) : Option Bool :=
  match Board.findKing s.board s.turn with
  | none => none
  | some kingPos =>
    match getMoves s s.turn.opposite with
    | none => none
    | some enemyMoves => some (enemyMoves.any (fun m => m.toPos == kingPos))

/-- `GameState::check_castle_rights_waived`. -/
def checkCastleRightsWaived (s : GameState) (pos : Nat) (piece : Piece) : GameState :=
  match piece.kind with
  | .Rook =>
    if pos % 8 = 0 then unsetCastle s piece.color .QueenSide
    else if pos % 8 = 7 then unsetCastle s piece.color .KingSide
    else s
  | .King => unsetCastle (unsetCastle s piece.color .KingSide) piece.color .QueenSide
  | _ => s

/-- `GameState::apply_move`; `none` models the panics (`unwrap` of an empty
source square, out-of-range board indexing). -/
def applyMove (s : GameState) (m : Move) : Option GameState :=
  let s0 := { s with halfmove_clock := s.halfmove_clock + 1, en_passant := none }
  match m with
  | .Normal src dst =>
    match boardGet s0.board src with
    | none => none
    | some none => none
    | some (some piece) =>
      match boardSet s0.board src none with
      | none => none
      | some b1 =>
        match boardSet b1 dst (some piece) with
        | none => none
        | some b2 =>
          let s1 := { s0 with board := b2 }
          let s2 := if piece.kind = PieceKind.Pawn then { s1 with halfmove_clock := 0 } else s1
          some (checkCastleRightsWaived s2 src piece)
  | .Capture src dst captured =>
    match boardGet s0.board src with
    | none => none
    | some none => none
    | some (some piece) =>
      match boardSet s0.board src none with
      | none => none
      | some b1 =>
        match boardSet b1 dst (some piece) with
        | none => none
        | some b2 =>
          let s1 := { s0 with
                      board := b2
                      captured_pieces := s0.captured_pieces ++ [captured]
                      halfmove_clock := 0 }
          some (checkCastleRightsWaived (checkCastleRightsWaived s1 src piece) dst captured)
  | .Promotion src dst promoted =>
    match boardGet s0.board src with
    | none => none
    | some none => none
    | some (some _) =>
      match boardSet s0.board src none with
      | none => none
      | some b1 =>
        match boardSet b1 dst (some promoted) with
        | none => none
        | some b2 => some { s0 with board := b2, halfmove_clock := 0 }
  | .PromotionCapture src dst captured promoted =>
    match boardGet s0.board src with
    | none => none
    | some none => none
    | some (some _) =>
      match boardSet s0.board src none with
      | none => none
      | some b1 =>
        match boardSet b1 dst (some promoted) with
        | none => none
        | some b2 =>
          let s1 := { s0 with
                      board := b2
                      captured_pieces := s0.captured_pieces ++ [captured]
                      halfmove_clock := 0 }
          some (checkCastleRightsWaived s1 dst captured)
  | .EnPassant src dst captured =>
    match boardGet s0.board src with
    | none => none
    | some none => none
    | some (some piece) =>
      match boardSet s0.board src none with
      | none => none
      | some b1 =>
        match boardSet b1 dst (some piece) with
        | none => none
        | some b2 =>
          match boardGet b2 captured with
          | none => none
          | some none => none
          | some (some capturedPawn) =>
            match boardSet b2 captured none with
            | none => none
            | some b3 =>
              some { s0 with
                     board := b3
                     captured_pieces := s0.captured_pieces ++ [capturedPawn]
                     halfmove_clock := 0 }
  | .DoublePawnPush src dst epTarget =>
    match boardGet s0.board src with
    | none => none
    | some none => none
    | some (some piece) =>
      match boardSet s0.board src none with
      | none => none
      | some b1 =>
        match boardSet b1 dst (some piece) with
        | none => none
        | some b2 =>
          some { s0 with board := b2, halfmove_clock := 0, en_passant := some epTarget }
  | .Castle src dst rookFrom rookTo =>
    match boardGet s0.board src with
    | none => none
    | some none => none
    | some (some king) =>
      match boardGet s0.board rookFrom with
      | none => none
      | some none => none
      | some (some rook) =>
        match boardSet s0.board src none with
        | none => none
        | some b1 =>
          match boardSet b1 dst (some king) with
          | none => none
          | some b2 =>
            match boardSet b2 rookFrom none with
            | none => none
            | some b3 =>
              match boardSet b3 rookTo (some rook) with
              | none => none
              | some b4 =>
                some (unsetCastle (unsetCastle { s0 with board := b4 }
                        king.color .KingSide) king.color .QueenSide)

/-! ## Check-safety pruning (src/core/src/moves.rs, `prune_moves_into_check`)

The Rust function is a `while` loop over an index `i` into a mutable vector:
`moves.remove(i)` followed by `continue` re-enters the loop at the same `i`,
which now denotes the following element, and `i += 1` keeps the element and
moves on.  `pruneLoop` is that loop with the already-kept prefix factored out:
the head of the argument list is the element `moves[i]`, dropping the head is
`remove(i)`, and keeping it is `i += 1`.  The Castle branch reproduces the
source's control flow faithfully: when a castle move passes both castle
pre-checks, the code increments `i` and *falls through* to the
simulate-and-test step, which therefore tests `moves[i]` — the element *after*
the castle move (which is kept untested), and panics (`none` here) when the
castle move was the last element. -/

def pruneLoop (s : GameState) : List Move → Option (List Move)
  | [] => some []
  | m :: rest =>
    match m with
    | .Castle _ _ _ rookTo =>
      match isInCheck s with
      | none => none
      | some chk =>
        match getMoves s s.turn.opposite with
        | none => none
        | some enemy =>
          if chk || enemy.any (fun mm => mm.toPos == rookTo) then
            pruneLoop s rest
          else
            match rest with
            | [] => none
            | n :: rest2 =>
              match applyMove s n with
              | none => none
              | some ns =>
                match isInCheck ns with
                | none => none
                | some chk2 =>
                  match pruneLoop s rest2 with
                  | none => none
                  | some out => some (if chk2 then m :: out else m :: n :: out)
    | _ =>
      match applyMove s m with
      | none => none
      | some ns =>
        match isInCheck ns with
        | none => none
        | some chk =>
          if chk then pruneLoop s rest
          else
            match pruneLoop s rest with
            | none => none
            | some out => some (m :: out)

/-- `prune_moves_into_check`. -/
def pruneMovesIntoCheck (moves : List Move) (s : GameState) : Option (List Move) :=
  pruneLoop s moves

/-- `GameState::legal_moves`. -/
def legalMoves (s : GameState) : Option (List Move) :=
  match getMoves s s.turn with
  | none => none
  | some ms => pruneMovesIntoCheck ms s

/-! ## Position ↔ algebraic notation (src/core/src/position.rs) -/

/-- `Position::new`; `none` models the panic on an out-of-range rank/file. -/
def positionNew (rank file : Nat) : Option Nat :=
  if rank > 7 then none
  else if file > 7 then none
  else some (rank * 8 + file)

/-- `Position::to_string`, faithfully including its `self.rank() >> 3`
(rather than `self.rank()`) in the rank character. -/
def positionToString (p : Nat) : List Char :=
  [Char.ofNat (p % 8 + 97), Char.ofNat (p / 8 / 8 + 49)]

def charToFile : Char → Option Nat
  | 'a' => some 0
  | 'b' => some 1
  | 'c' => some 2
  | 'd' => some 3
  | 'e' => some 4
  | 'f' => some 5
  | 'g' => some 6
  | 'h' => some 7
  | _ => none

def charToRank : Char → Option Nat
  | '1' => some 0
  | '2' => some 1
  | '3' => some 2
  | '4' => some 3
  | '5' => some 4
  | '6' => some 5
  | '7' => some 6
  | '8' => some 7
  | _ => none

/-- `Position::try_from<&str>` (errors collapsed to `none`). -/
def positionTryFrom (cs : List Char) : Option Nat :=
  match cs with
  | [fc, rc] =>
    match charToFile fc with
    | none => none
    | some f =>
      match charToRank rc with
      | none => none
      | some r => positionNew r f
  | _ => none

/-! ## FEN codec (src/core/src/state.rs) -/

inductive FENToken where
  | Piece (c : Char)
  | Empty (n : Nat)
  | EndOfRank
  | EndOfBoard
  | Turn (c : Char)
  | Castle (c : Char)
  | EnPassant (f r : Char)
  | HalfmoveClock (n : Nat)
  | FullmoveNumber (n : Nat)
deriving DecidableEq

inductive FENParserError where
  | NotEnoughArguments
  | InvalidArgument (s : List Char)
  | InvalidPiece (c : Char)
  | InvalidTurn (c : Char)
  | InvalidCastle (c : Char)
  | InvalidPosition (f r : Char)
  | InvalidRankCount (n : Nat)
  | InvalidFileCount (n : Nat)
deriving DecidableEq

def fenCharToPiece : Char → Option Piece
  | 'P' => some ⟨.Pawn, .White⟩
  | 'N' => some ⟨.Knight, .White⟩
  | 'B' => some ⟨.Bishop, .White⟩
  | 'R' => some ⟨.Rook, .White⟩
  | 'Q' => some ⟨.Queen, .White⟩
  | 'K' => some ⟨.King, .White⟩
  | 'p' => some ⟨.Pawn, .Black⟩
  | 'n' => some ⟨.Knight, .Black⟩
  | 'b' => some ⟨.Bishop, .Black⟩
  | 'r' => some ⟨.Rook, .Black⟩
  | 'q' => some ⟨.Queen, .Black⟩
  | 'k' => some ⟨.King, .Black⟩
  | _ => none

/-- ASCII whitespace as recognised by `str::split_whitespace` (the Unicode
whitespace code points are all ≥ U+0085 and are not used by the claims). -/
def isWs (c : Char) : Bool :=
  c == ' ' || c == '\t' || c == '\n' || c == Char.ofNat 11 || c == Char.ofNat 12 || c == '\r'

def splitWsAux : List Char → List Char → List (List Char)
  | [], acc => if acc.isEmpty then [] else [acc.reverse]
  | c :: rest, acc =>
    if isWs c then
      if acc.isEmpty then splitWsAux rest []
      else acc.reverse :: splitWsAux rest []
    else splitWsAux rest (c :: acc)

def splitWs (cs : List Char) : List (List Char) := splitWsAux cs []

/-- Lexing of one character of the piece-placement field. -/
def lexBoardChar (c : Char) : FENToken :=
  if '1' ≤ c ∧ c ≤ '8' then .Empty (c.toNat - 48)
  else if c = '/' then .EndOfRank
  else .Piece c

def isDecDigit (c : Char) : Bool := '0' ≤ c && c ≤ '9'

def decDigitsVal (cs : List Char) : Nat :=
  cs.foldl (fun a c => a * 10 + (c.toNat - 48)) 0

/-- `str::parse::<usize>` (an optional leading `+`, then one or more digits). -/
def parseUsize (cs : List Char) : Option Nat :=
  let ds := match cs with
    | '+' :: rest => rest
    | _ => cs
  if ds.isEmpty then none
  else if ds.all isDecDigit then some (decDigitsVal ds) else none

/-- `lex_fen_str`. -/
def lexFen (fen : List Char) : Except FENParserError (List FENToken) :=
  match splitWs fen with
  | [] => .error .NotEnoughArguments
  | boardField :: afterBoard =>
    let boardToks := boardField.map lexBoardChar ++ [FENToken.EndOfBoard]
    match afterBoard with
    | [] => .error .NotEnoughArguments
    | turnField :: afterTurn =>
      match turnField with
      | [tc] =>
        match afterTurn with
        | [] => .error .NotEnoughArguments
        | castleField :: afterCastle =>
          let castleToks :=
            if castleField = ['-'] then [] else castleField.map FENToken.Castle
          match afterCastle with
          | [] => .error .NotEnoughArguments
          | epField :: afterEp =>
            let epToks : Except FENParserError (List FENToken) :=
              if epField = ['-'] then .ok []
              else
                match epField with
                | [f, r] => .ok [FENToken.EnPassant f r]
                | _ => .error (.InvalidArgument epField)
            match epToks with
            | .error e => .error e
            | .ok epToks =>
              match afterEp with
              | [] => .error .NotEnoughArguments
              | hmField :: afterHm =>
                match parseUsize hmField with
                | none => .error (.InvalidArgument hmField)
                | some hm =>
                  match afterHm with
                  | [] => .error .NotEnoughArguments
                  | fmField :: _ =>
                    match parseUsize fmField with
                    | none => .error (.InvalidArgument fmField)
                    | some fm =>
                      .ok (boardToks ++ [FENToken.Turn tc] ++ castleToks ++ epToks ++
                           [FENToken.HalfmoveClock hm, FENToken.FullmoveNumber fm])
      | _ => .error (.InvalidArgument turnField)

/-- `GameState::parse_fen_tokens` (the `rank`/`file` cursors are passed
explicitly; `from_fen` starts them at `7`/`0` on the empty state). -/
def parseFenTokens : List FENToken → Nat → Nat → GameState →
    Except FENParserError GameState
  | [], _, _, g => .ok g
  | t :: ts, rank, file, g =>
    match t with
    | .Piece c =>
      if file > 7 then .error (.InvalidFileCount file)
      else
        match fenCharToPiece c with
        | none => .error (.InvalidPiece c)
        | some p =>
          parseFenTokens ts rank (file + 1)
            { g with board := List.set g.board (rank * 8 + file) (some p) }
    | .Empty n =>
      let file' := file + n
      if file' > 8 then .error (.InvalidFileCount file')
      else parseFenTokens ts rank file' g
    | .EndOfRank =>
      if rank = 0 then .error (.InvalidRankCount 9)
      else parseFenTokens ts (rank - 1) 0 g
    | .EndOfBoard =>
      if rank > 0 then .error (.InvalidRankCount (8 - rank))
      else parseFenTokens ts rank file g
    | .Turn c =>
      match c with
      | 'w' => parseFenTokens ts rank file { g with turn := .White }
      | 'b' => parseFenTokens ts rank file { g with turn := .Black }
      | _ => .error (.InvalidTurn c)
    | .Castle c =>
      match c with
      | 'K' => parseFenTokens ts rank file
          { g with castling_rights := g.castling_rights ||| 8 }
      | 'Q' => parseFenTokens ts rank file
          { g with castling_rights := g.castling_rights ||| 4 }
      | 'k' => parseFenTokens ts rank file
          { g with castling_rights := g.castling_rights ||| 2 }
      | 'q' => parseFenTokens ts rank file
          { g with castling_rights := g.castling_rights ||| 1 }
      | _ => .error (.InvalidCastle c)
    | .EnPassant f r =>
      match positionTryFrom [f, r] with
      | none => .error (.InvalidPosition f r)
      | some pos => parseFenTokens ts rank file { g with en_passant := some pos }
    | .HalfmoveClock n => parseFenTokens ts rank file { g with halfmove_clock := n }
    | .FullmoveNumber n => parseFenTokens ts rank file { g with fullmove_number := n }

/-- `GameState::from_fen`. -/
def fromFen (fen : List Char) : Except FENParserError GameState :=
  match lexFen fen with
  | .error e => .error e
  | .ok ts => parseFenTokens ts 7 0 GameState.empty

/-! ## Statement-side vocabulary and concrete instances -/

/-- Build a board by placing pieces on the empty board. -/
def boardOf (l : List (Nat × Piece)) : Board :=
  l.foldl (fun b q => List.set b q.1 (some q.2)) Board.empty

/-- The squares strictly between two squares that lie on a common rank, file
or diagonal (empty otherwise). -/
def betweenSquares (a b : Nat) : List Nat :=
  let ra := a / 8
  let fa := a % 8
  let rb := b / 8
  let fb := b % 8
  if ra = rb then
    (List.range (max fa fb - min fa fb - 1)).map (fun i => ra * 8 + (min fa fb + 1 + i))
  else if fa = fb then
    (List.range (max ra rb - min ra rb - 1)).map (fun i => (min ra rb + 1 + i) * 8 + fa)
  else if ra < rb ∧ fa < fb ∧ rb - ra = fb - fa then
    (List.range (rb - ra - 1)).map (fun i => (ra + 1 + i) * 8 + (fa + 1 + i))
  else if ra < rb ∧ fb < fa ∧ rb - ra = fa - fb then
    (List.range (rb - ra - 1)).map (fun i => (ra + 1 + i) * 8 + (fa - 1 - i))
  else if rb < ra ∧ fa < fb ∧ ra - rb = fb - fa then
    (List.range (ra - rb - 1)).map (fun i => (ra - 1 - i) * 8 + (fa + 1 + i))
  else if rb < ra ∧ fb < fa ∧ ra - rb = fa - fb then
    (List.range (ra - rb - 1)).map (fun i => (ra - 1 - i) * 8 + (fa - 1 - i))
  else []

/-- Capture variants (Capture, PromotionCapture, EnPassant). -/
def isCaptureKind : Move → Bool
  | .Capture .. => true
  | .PromotionCapture .. => true
  | .EnPassant .. => true
  | _ => false

/-- Pawn moves in the halfmove-clock sense of the spec: a Normal move whose
moving piece is a pawn, a DoublePawnPush, or a Promotion. -/
def isPawnClockMove (s : GameState) : Move → Bool
  | .Normal src _ =>
    match boardGet s.board src with
    | some (some p) => p.kind == PieceKind.Pawn
    | _ => false
  | .DoublePawnPush .. => true
  | .Promotion .. => true
  | _ => false

/-- The en-passant target recorded by a move. -/
def epAfter : Move → Option Nat
  | .DoublePawnPush _ _ ep => some ep
  | _ => none

/-- Whether a single piece sitting on `pos` waives the `(c, side)` castling
right when it moves away from (or is captured on) `pos`. -/
def pieceWaivesB (pos : Nat) (p : Piece) (c : PieceColor) (side : CastleSide) : Bool :=
  match p.kind with
  | .Rook =>
    if pos % 8 = 0 then decide (p.color = c ∧ CastleSide.QueenSide = side)
    else if pos % 8 = 7 then decide (p.color = c ∧ CastleSide.KingSide = side)
    else false
  | .King => decide (p.color = c)
  | _ => false

/-- Which moves waive the `(c, side)` castling right, per the amended claim:
the moved rook/king (Normal and Capture), the captured rook/king at the
destination square (Capture and PromotionCapture), and a Castle move for the
color of the piece on its king source square.  Rook waiving depends only on
the square's file (0 or 7), not on the full home square. -/
def waivesB (s : GameState) (m : Move) (c : PieceColor) (side : CastleSide) : Bool :=
  match m with
  | .Normal src _ =>
    (match boardGet s.board src with
     | some (some p) => pieceWaivesB src p c side
     | _ => false)
  | .Capture src dst captured =>
    (match boardGet s.board src with
     | some (some p) => pieceWaivesB src p c side
     | _ => false) || pieceWaivesB dst captured c side
  | .PromotionCapture _ dst captured _ => pieceWaivesB dst captured c side
  | .Castle src _ _ _ =>
    (match boardGet s.board src with
     | some (some p) => decide (p.color = c)
     | _ => false)
  | _ => false

deriving instance DecidableEq for Except

def isErr {ε α : Type} : Except ε α → Bool
  | .error _ => true
  | .ok _ => false

def validPieceChar (c : Char) : Bool := (fenCharToPiece c).isSome

/-- The width in files of one piece-placement character. -/
def charWidth (c : Char) : Nat := if '1' ≤ c ∧ c ≤ '8' then c.toNat - 48 else 1

/-- The file totals of the `/`-separated groups of a placement field, starting
the first group at `cur`. -/
def groupSums : List Char → Nat → List Nat
  | [], cur => [cur]
  | c :: rest, cur =>
    if c = '/' then cur :: groupSums rest 0
    else groupSums rest (cur + charWidth c)

/-- The file totals of the ranks of a placement field. -/
def rankSums (cs : List Char) : List Nat := groupSums cs 0

/-- The five non-placement FEN fields used by the C8 statements. -/
def fenSuffix : List Char := (" w - - 0 1").toList

/-- C1 failing input: lone white king on h8, white kingside rights set. -/
def c1State : GameState :=
  ⟨boardOf [(63, ⟨.King, .White⟩)], .White, 8, none, 0, 1, []⟩

/-- C3 failing input: empty board, white to move, only the *white queenside*
rights bit (0b0100) set. -/
def c3State : GameState := ⟨Board.empty, .White, 4, none, 0, 1, []⟩

/-- C3 second input: empty board, only the black kingside bit (0b0010) set. -/
def c3StateK : GameState := ⟨Board.empty, .White, 2, none, 0, 1, []⟩

/-- C4 counterexample input: a lone white rook on a4 (flat 24), all four
castling-rights bits set. -/
def c4State : GameState :=
  ⟨boardOf [(24, ⟨.Rook, .White⟩)], .White, 15, none, 0, 1, []⟩

/-- C6 input: white pawn on rank 4 / file 4 (e5, flat 36), black pawn on
rank 4 / file 3 (d5, flat 35), en-passant target rank 5 / file 3 (d6,
flat 43), white to move. -/
def c6State : GameState :=
  ⟨boardOf [(36, ⟨.Pawn, .White⟩), (35, ⟨.Pawn, .Black⟩)], .White, 0, some 43, 0, 1, []⟩

/-- C2 witness input: white king a1, black queen b2. -/
def c2WState : GameState :=
  ⟨boardOf [(0, ⟨.King, .White⟩), (9, ⟨.Queen, .Black⟩)], .White, 0, none, 0, 1, []⟩

/-- The enemy pseudo-legal moves of `c2WState`. -/
def c2WEnemy : List Move :=
  (getMoves c2WState (PieceColor.opposite .White)).getD []

/-- C5 witness input: white pawn b2, stale en-passant target, clock 5. -/
def c5WState : GameState :=
  ⟨boardOf [(8, ⟨.Pawn, .White⟩)], .White, 0, some 20, 5, 3, []⟩

def c5WMove : Move := .Normal 8 16

def c5WRes : GameState := (applyMove c5WState c5WMove).getD GameState.empty

/-- C10 witness input: white king e1. -/
def c10WState : GameState :=
  ⟨boardOf [(4, ⟨.King, .White⟩)], .White, 15, none, 2, 9, []⟩

def c10WMove : Move := .Normal 4 12

def c10WRes : GameState := (applyMove c10WState c10WMove).getD GameState.empty

/-- The C4 counterexample move: white rook a4 → b4 (no home square involved,
not a capture). -/
def c4CexMove : Move := .Normal 24 25

def c4CexRes : GameState := (applyMove c4State c4CexMove).getD GameState.empty

/-- C7 witness input: white rook a1, black pawn d1. -/
def c7WState : GameState :=
  ⟨boardOf [(0, ⟨.Rook, .White⟩), (3, ⟨.Pawn, .Black⟩)], .White, 0, none, 0, 1, []⟩

def c7WMoves : List Move := (getMoves c7WState .White).getD []

/-- Destination-safety: no friendly piece on the move's destination square. -/
def dstSafe (s : GameState) (c : PieceColor) (m : Move) : Prop :=
  ∀ q : Piece, boardGet s.board (Move.toPos m) = some (some q) → q.color ≠ c

/-! ## Theorems -/

/-- C9: the claim that converting `Position::new(rank, file)` to its algebraic
string and parsing it back is the identity fails: `to_string` computes the rank
character from `self.rank() >> 3` (a second shift), so every position prints
with rank character `'1'`.  At rank 7 / file 7 the printed string is `"h1"`,
which parses back to rank 0 / file 7 — diverging both from the claim and from
the repository's own test `test_position_to_string_ok` (which expects `"h8"`).
-/
theorem c9_to_string_breaks_round_trip :
    positionNew 7 7 = some 63 ∧
    positionToString 63 = ['h', '1'] ∧
    positionTryFrom (positionToString 63) = some 7 ∧
    (7 : Nat) ≠ 63 := by decide

/-- C3: castle synthesis is broken for Black.  On an empty board with only the
*white queenside* bit (0b0100) set and White to move, generating Black's
pseudo-legal moves synthesizes a queenside castle `e8→c1` with rook `a1→d1`
(the queenside branch consults `state.turn`'s rights, and all four squares of
the synthesized move except `from` lie on rank 0, White's back rank); with
only the black kingside bit (0b0010) set, Black's kingside castle is `e8→g1`
with rook `h1→f1`, again on rank 0 instead of rank 7. -/
theorem c3_black_castle_uses_white_back_rank :
    makeCastleMoves c3State .Black = some [Move.Castle 60 2 0 3] ∧
    canCastle c3State .Black .QueenSide = false ∧
    makeCastleMoves c3StateK .Black = some [Move.Castle 60 6 7 5] ∧
    (60 : Nat) / 8 = 7 ∧ (2 : Nat) / 8 = 0 ∧ (6 : Nat) / 8 = 0 := by decide

/-- C6: in `c6State` (white pawn e5 = rank 4 / file 4, black pawn d5 = rank 4
/ file 3, en-passant target d6 = rank 5 / file 3), White's move generation
produces the EnPassant move to flat 43 (rank 5 / file 3) capturing flat 35
(rank 4 / file 3); applying it removes the black pawn from flat 35 (not from
the destination 43), puts the white pawn on 43, and appends the black pawn to
`captured_pieces`. -/
theorem c6_en_passant_generation_and_application :
    getMoves c6State .White = some [Move.Normal 36 44, Move.EnPassant 36 43 35] ∧
    (applyMove c6State (Move.EnPassant 36 43 35)).map
        (fun s => (boardGet s.board 35, boardGet s.board 43, boardGet s.board 36,
                   s.captured_pieces)) =
      some (some none, some (some ⟨.Pawn, .White⟩), some none, [⟨.Pawn, .Black⟩]) := by
  decide

/-- C1: the check-safety filter does not satisfy the claim; it is the known
loop-index defect (spec §9).  In `c1State` (lone white king h8, white kingside
rights set) the only castle move passes both castle pre-checks, whereupon the
loop increments `i` past it and falls through to `moves[i]` with `i` equal to
the vector length: `legal_moves` panics (modelled as `none`) instead of
returning a list of check-safe moves. -/
theorem c1_prune_index_out_of_bounds :
    getMoves c1State .White =
      some [Move.Normal 63 54, Move.Normal 63 62, Move.Normal 63 55,
            Move.Castle 4 6 7 5] ∧
    legalMoves c1State = none := by decide

/-! ### Helper lemmas about state updates -/

theorem unsetCastle_turn (s : GameState) (c : PieceColor) (side : CastleSide) :
    (unsetCastle s c side).turn = s.turn := rfl

theorem unsetCastle_fullmove (s : GameState) (c : PieceColor) (side : CastleSide) :
    (unsetCastle s c side).fullmove_number = s.fullmove_number := rfl

theorem unsetCastle_halfmove (s : GameState) (c : PieceColor) (side : CastleSide) :
    (unsetCastle s c side).halfmove_clock = s.halfmove_clock := rfl

theorem unsetCastle_en_passant (s : GameState) (c : PieceColor) (side : CastleSide) :
    (unsetCastle s c side).en_passant = s.en_passant := rfl

theorem ccrw_turn (s : GameState) (pos : Nat) (p : Piece) :
    (checkCastleRightsWaived s pos p).turn = s.turn := by
  rcases p with ⟨k, col⟩
  cases k <;> simp only [checkCastleRightsWaived] <;>
    first
      | rfl
      | (split_ifs <;> rfl)

theorem ccrw_fullmove (s : GameState) (pos : Nat) (p : Piece) :
    (checkCastleRightsWaived s pos p).fullmove_number = s.fullmove_number := by
  rcases p with ⟨k, col⟩
  cases k <;> simp only [checkCastleRightsWaived] <;>
    first
      | rfl
      | (split_ifs <;> rfl)

theorem ccrw_halfmove (s : GameState) (pos : Nat) (p : Piece) :
    (checkCastleRightsWaived s pos p).halfmove_clock = s.halfmove_clock := by
  rcases p with ⟨k, col⟩
  cases k <;> simp only [checkCastleRightsWaived] <;>
    first
      | rfl
      | (split_ifs <;> rfl)

theorem ccrw_en_passant (s : GameState) (pos : Nat) (p : Piece) :
    (checkCastleRightsWaived s pos p).en_passant = s.en_passant := by
  rcases p with ⟨k, col⟩
  cases k <;> simp only [checkCastleRightsWaived] <;>
    first
      | rfl
      | (split_ifs <;> rfl)

/-- C10: `apply_move` never changes the side to move or the fullmove counter;
every arm only rebuilds the board, clocks, capture log, en-passant target and
castling rights. -/
theorem c10_apply_move_preserves_turn_and_fullmove
    (s : GameState) (m : Move) (s2 : GameState) (h : applyMove s m = some s2) :
    s2.turn = s.turn ∧ s2.fullmove_number = s.fullmove_number := by
  cases m <;> simp only [applyMove] at h <;>
    (repeat' split at h) <;>
    (try cases h) <;>
    simp [ccrw_turn, ccrw_fullmove, unsetCastle_turn, unsetCastle_fullmove]

/-- C5: after a successful `apply_move`, the halfmove clock is `0` exactly for
the capture variants (Capture, PromotionCapture, EnPassant) and the pawn moves
(a Normal move of a pawn, DoublePawnPush, Promotion), and the previous value
plus one for every other move (including Castle); the en-passant field is the
target of a DoublePawnPush and `none` for every other move, whatever it was
before. -/
theorem c5_halfmove_clock_and_en_passant
    (s : GameState) (m : Move) (s2 : GameState) (h : applyMove s m = some s2) :
    s2.halfmove_clock =
      (if isCaptureKind m || isPawnClockMove s m then 0 else s.halfmove_clock + 1) ∧
    s2.en_passant = epAfter m := by
  cases m <;> simp only [applyMove] at h <;>
    (repeat' split at h) <;>
    (try cases h) <;>
    simp [isCaptureKind, isPawnClockMove, epAfter, ccrw_halfmove, ccrw_en_passant,
          unsetCastle_halfmove, unsetCastle_en_passant, *]

theorem c5_witness :
    applyMove c5WState c5WMove = some c5WRes ∧
    c5WRes.halfmove_clock =
      (if isCaptureKind c5WMove || isPawnClockMove c5WState c5WMove then 0
       else c5WState.halfmove_clock + 1) ∧
    c5WRes.en_passant = epAfter c5WMove := by
  have h : applyMove c5WState c5WMove = some c5WRes := by decide
  exact ⟨h, (c5_halfmove_clock_and_en_passant c5WState c5WMove c5WRes h).1,
         (c5_halfmove_clock_and_en_passant c5WState c5WMove c5WRes h).2⟩

theorem c10_witness :
    applyMove c10WState c10WMove = some c10WRes ∧
    c10WRes.turn = c10WState.turn ∧
    c10WRes.fullmove_number = c10WState.fullmove_number := by
  have h : applyMove c10WState c10WMove = some c10WRes := by decide
  exact ⟨h, (c10_apply_move_preserves_turn_and_fullmove c10WState c10WMove c10WRes h).1,
         (c10_apply_move_preserves_turn_and_fullmove c10WState c10WMove c10WRes h).2⟩

/-! ### Castling rights after a move (C4) -/

theorem canCastle_unsetCastle (s : GameState) (c2 c : PieceColor)
    (side2 side : CastleSide) :
    canCastle (unsetCastle s c2 side2) c side =
      (canCastle s c side && !(decide (c2 = c ∧ side2 = side))) := by
  have hmask : (255 - castleMask c2 side2) &&& castleMask c side =
      (if c2 = c ∧ side2 = side then 0 else castleMask c side) := by
    cases c2 <;> cases side2 <;> cases c <;> cases side <;> decide
  simp only [canCastle, unsetCastle, Nat.land_assoc, hmask]
  by_cases hcs : c2 = c ∧ side2 = side
  · simp [hcs]
  · simp [hcs]

theorem unset_both_bool (x : Bool) (col c : PieceColor) (side : CastleSide) :
    ((x && !(decide (col = c ∧ CastleSide.KingSide = side))) &&
      !(decide (col = c ∧ CastleSide.QueenSide = side))) = (x && !(decide (col = c))) := by
  by_cases hc : col = c
  · cases side <;> simp [hc]
  · simp [hc]

theorem canCastle_ccrw (s : GameState) (pos : Nat) (p : Piece) (c : PieceColor)
    (side : CastleSide) :
    canCastle (checkCastleRightsWaived s pos p) c side =
      (canCastle s c side && !pieceWaivesB pos p c side) := by
  rcases p with ⟨k, col⟩
  cases k
  case Rook =>
    simp only [checkCastleRightsWaived, pieceWaivesB]
    split_ifs with h0 h7
    · rw [canCastle_unsetCastle]
    · rw [canCastle_unsetCastle]
    · simp
  case King =>
    simp only [checkCastleRightsWaived, pieceWaivesB]
    rw [canCastle_unsetCastle, canCastle_unsetCastle, unset_both_bool]
  all_goals simp [checkCastleRightsWaived, pieceWaivesB]

/-- C4 (amended): the castling-rights outcome of a successful `apply_move`,
characterised exactly: a right `(c, side)` survives iff it was set before and
the move does not waive it per `waivesB` — the moved piece (Normal/Capture)
and the captured piece (Capture/PromotionCapture) waive by *file only* (file 0
queenside, file 7 kingside, any rank) when a rook, and waive both sides when a
king; a Castle move waives both sides of the color of the piece on its king
source square; Promotion, EnPassant and DoublePawnPush waive nothing. -/
theorem c4_castle_rights_amended (s : GameState) (m : Move) (s2 : GameState)
    (c : PieceColor) (side : CastleSide) (h : applyMove s m = some s2) :
    canCastle s2 c side = (canCastle s c side && !waivesB s m c side) := by
  cases m <;> simp only [applyMove] at h <;>
    (repeat' split at h) <;> (try cases h) <;>
    (try simp only [canCastle_ccrw, canCastle_unsetCastle, unset_both_bool]) <;>
    simp [waivesB, canCastle, Bool.not_or, Bool.and_assoc, *]

/-- C4 counterexample: in `c4State` (lone white rook on a4 = flat 24, all four
rights set) the non-capture move a4→b4 clears the white queenside bit
(15 → 11), although it neither moves nor captures any piece on a rook or king
home square (a1=0, h1=7, a8=56, h8=63): `check_castle_rights_waived` tests
only `pos.file()`, not the home square. -/
theorem c4_counterexample :
    applyMove c4State c4CexMove = some c4CexRes ∧
    c4State.castling_rights = 15 ∧
    c4CexRes.castling_rights = 11 ∧
    c4CexMove = Move.Normal 24 25 ∧
    (∀ hsq ∈ [0, 7, 56, 63], Move.fromPos c4CexMove ≠ hsq) ∧
    isCaptureKind c4CexMove = false := by decide

theorem c4_amended_witness :
    applyMove c4State c4CexMove = some c4CexRes ∧
    canCastle c4CexRes .White .QueenSide =
      (canCastle c4State .White .QueenSide &&
        !waivesB c4State c4CexMove .White .QueenSide) := by
  have h : applyMove c4State c4CexMove = some c4CexRes := by decide
  exact ⟨h, c4_castle_rights_amended c4State c4CexMove c4CexRes .White .QueenSide h⟩

/-! ### King location and check detection (C2) -/

theorem findKingAux_eq_none (l : List (Option Piece)) (i : Nat) (c : PieceColor) :
    findKingAux l i c = none ↔
      ∀ j p, List.get? l j = some (some p) →
        p.kind = PieceKind.King → p.color ≠ c := by
  induction l generalizing i with
  | nil => simp [findKingAux]
  | cons sq rest ih =>
    cases sq with
    | none =>
      simp only [findKingAux]
      rw [ih (i + 1)]
      constructor
      · intro hall j p hj
        cases j with
        | zero => simp at hj
        | succ j => exact hall j p (by simpa using hj)
      · intro hall j p hj
        exact hall (j + 1) p (by simpa using hj)
    | some q =>
      simp only [findKingAux]
      split_ifs with hq
      · constructor
        · intro h; cases h
        · intro hall
          exact absurd hq.2 (hall 0 q (by simp) hq.1)
      · rw [ih (i + 1)]
        constructor
        · intro hall j p hj
          cases j with
          | zero =>
            have hpq : q = p := by simpa using hj
            subst hpq
            intro hk hc
            exact hq ⟨hk, hc⟩
          | succ j => exact hall j p (by simpa using hj)
        · intro hall j p hj
          exact hall (j + 1) p (by simpa using hj)

theorem findKingAux_eq_some (l : List (Option Piece)) (i : Nat) (c : PieceColor)
    (r : Nat) (h : findKingAux l i c = some r) :
    ∃ j, r = i + j ∧ List.get? l j = some (some ⟨PieceKind.King, c⟩) := by
  induction l generalizing i with
  | nil => simp [findKingAux] at h
  | cons sq rest ih =>
    cases sq with
    | none =>
      simp only [findKingAux] at h
      obtain ⟨j, rfl, hj⟩ := ih (i + 1) h
      exact ⟨j + 1, by omega, by simpa using hj⟩
    | some q =>
      simp only [findKingAux] at h
      split_ifs at h with hq
      · cases h
        refine ⟨0, by omega, ?_⟩
        have hqe : q = ⟨PieceKind.King, c⟩ := by
          rcases q with ⟨qk, qc⟩
          obtain ⟨h1, h2⟩ := hq
          simp only at h1 h2
          rw [h1, h2]
        simp [hqe]
      · obtain ⟨j, rfl, hj⟩ := ih (i + 1) h
        exact ⟨j + 1, by omega, by simpa using hj⟩

/-- C2: for a `GameState` whose board holds exactly one king of the side to
move (at square `k`), `is_in_check` returns `true` iff some pseudo-legal move
of the opposite color has destination `k`; with no king of that color on the
board, the call panics (modelled `none`) instead of returning `false`. -/
theorem c2_is_in_check (s : GameState) :
    (∀ k, boardGet s.board k = some (some ⟨PieceKind.King, s.turn⟩) →
      (∀ j, j < List.length s.board →
        boardGet s.board j = some (some ⟨PieceKind.King, s.turn⟩) → j = k) →
      ∀ ems, getMoves s s.turn.opposite = some ems →
        (isInCheck s = some true ↔ ∃ m ∈ ems, Move.toPos m = k)) ∧
    ((∀ j p, boardGet s.board j = some (some p) →
        p.kind = PieceKind.King → p.color ≠ s.turn) →
      isInCheck s = none) := by
  constructor
  · intro k hk huniq ems hems
    have hfk : Board.findKing s.board s.turn = some k := by
      cases hf : Board.findKing s.board s.turn with
      | none =>
        rw [Board.findKing, findKingAux_eq_none] at hf
        exact absurd rfl (hf k ⟨PieceKind.King, s.turn⟩ hk rfl)
      | some r =>
        obtain ⟨j, rfl, hj⟩ := findKingAux_eq_some s.board 0 s.turn r hf
        obtain ⟨hlt, -⟩ := List.get?_eq_some.mp hj
        have hje := huniq j hlt hj
        simp [hje]
    simp only [isInCheck, hfk, hems]
    simp [List.any_eq_true]
  · intro hno
    have hfk : Board.findKing s.board s.turn = none := by
      rw [Board.findKing, findKingAux_eq_none]
      exact fun j p hj => hno j p hj
    simp [isInCheck, hfk]

theorem c2_witness :
    boardGet c2WState.board 0 = some (some ⟨PieceKind.King, c2WState.turn⟩) ∧
    getMoves c2WState c2WState.turn.opposite = some c2WEnemy ∧
    (isInCheck c2WState = some true ↔ ∃ m ∈ c2WEnemy, Move.toPos m = 0) := by
  have h1 : boardGet c2WState.board 0 = some (some ⟨PieceKind.King, c2WState.turn⟩) := by
    decide
  have h2 : ∀ j, j < List.length c2WState.board →
      boardGet c2WState.board j = some (some ⟨PieceKind.King, c2WState.turn⟩) →
      j = 0 := by decide
  have h3 : getMoves c2WState c2WState.turn.opposite = some c2WEnemy := by decide
  exact ⟨h1, h3, (c2_is_in_check c2WState).1 0 h1 h2 c2WEnemy h3⟩

/-! ### Move-generator membership lemmas (C7) -/

theorem optCat_eq_some (a b : Option (List Move)) (ms : List Move)
    (h : optCat a b = some ms) :
    ∃ x y, a = some x ∧ b = some y ∧ ms = x ++ y := by
  unfold optCat at h
  split at h
  · exact ⟨_, _, rfl, rfl, (Option.some.inj h).symm⟩
  · cases h

theorem addMoveIfValid_mem (t center : Nat) (s : GameState) (c : PieceColor)
    (ms : List Move) (b : Bool) (h : addMoveIfValid t center s c = some (ms, b))
    (m : Move) (hm : m ∈ ms) :
    m.fromPos = center ∧ m.toPos = t ∧ dstSafe s c m := by
  unfold addMoveIfValid at h
  split at h
  · cases h
  · rename_i piece hget
    rw [Option.some.injEq, Prod.mk.injEq] at h
    obtain ⟨hms, -⟩ := h
    subst hms
    split at hm
    · rename_i hne
      rw [List.mem_singleton] at hm
      subst hm
      refine ⟨rfl, rfl, ?_⟩
      intro q hq
      rw [Move.toPos] at hq
      rw [hget] at hq
      cases Option.some.inj (Option.some.inj hq)
      exact hne
    · cases hm
  · rename_i hget
    rw [Option.some.injEq, Prod.mk.injEq] at h
    obtain ⟨hms, -⟩ := h
    subst hms
    rw [List.mem_singleton] at hm
    subst hm
    refine ⟨rfl, rfl, ?_⟩
    intro q hq
    rw [Move.toPos] at hq
    rw [hget] at hq
    cases hq

theorem addMoveIfValid_false (t center : Nat) (s : GameState) (c : PieceColor)
    (ms : List Move) (h : addMoveIfValid t center s c = some (ms, false)) :
    boardGet s.board t = some none := by
  unfold addMoveIfValid at h
  split at h
  · cases h
  · rw [Option.some.injEq, Prod.mk.injEq] at h
    cases h.2
  · assumption

theorem addIf_mem (cond : Bool) (t center : Nat) (s : GameState) (c : PieceColor)
    (ms : List Move) (h : addIf cond t center s c = some ms) (m : Move) (hm : m ∈ ms) :
    m.fromPos = center ∧ dstSafe s c m := by
  unfold addIf at h
  split at h
  · split at h
    · cases h
    · rename_i p hp
      cases h
      obtain ⟨h1, h2, h3⟩ := addMoveIfValid_mem t center s c _ _ hp m hm
      exact ⟨h1, h3⟩
  · cases h
    cases hm

theorem get?_range_map (f : Nat → Nat) (n i : Nat) :
    List.get? ((List.range n).map f) i = if i < n then some (f i) else none := by
  split
  · rename_i hi
    rw [List.get?_map, List.get?_range hi]
    rfl
  · rename_i hi
    apply List.get?_eq_none.mpr
    simp only [List.length_map, List.length_range]
    omega

theorem rayCast_mem (s : GameState) (c : PieceColor) (center : Nat)
    (ts : List Nat) (ms : List Move) (h : rayCast s c center ts = some ms)
    (m : Move) (hm : m ∈ ms) :
    ∃ j t, List.get? ts j = some t ∧ m.fromPos = center ∧ m.toPos = t ∧
      dstSafe s c m ∧
      (∀ i, i < j → ∀ t2, List.get? ts i = some t2 → boardGet s.board t2 = some none) := by
  induction ts generalizing ms with
  | nil =>
    rw [rayCast] at h
    cases h
    cases hm
  | cons t ts ih =>
    rw [rayCast] at h
    split at h
    · cases h
    · rename_i ms0 hadd
      cases h
      obtain ⟨h1, h2, h3⟩ := addMoveIfValid_mem t center s c _ _ hadd m hm
      exact ⟨0, t, rfl, h1, h2, h3, fun i hi => absurd hi (by omega)⟩
    · rename_i ms0 hadd
      split at h
      · cases h
      · rename_i rest hrest
        cases h
        rcases List.mem_append.mp hm with hm0 | hmr
        · obtain ⟨h1, h2, h3⟩ := addMoveIfValid_mem t center s c _ _ hadd m hm0
          exact ⟨0, t, rfl, h1, h2, h3, fun i hi => absurd hi (by omega)⟩
        · obtain ⟨j, t2, hj, h1, h2, h3, hpre⟩ := ih rest hrest hmr
          refine ⟨j + 1, t2, by simpa using hj, h1, h2, h3, ?_⟩
          intro i hi t3 hget
          cases i with
          | zero =>
            cases Option.some.inj hget
            exact addMoveIfValid_false t center s c ms0 hadd
          | succ i =>
            exact hpre i (by omega) t3 (by simpa using hget)

theorem between_tl (center j : Nat) (hj : j < min (center / 8) (center % 8)) :
    ∀ t ∈ betweenSquares center (center - 9 * (j + 1)),
      ∃ i, i < j ∧ t = center - 9 * (i + 1) := by
  intro t ht
  rw [Nat.lt_min] at hj
  have hdm := Nat.div_add_mod center 8
  have hf : center % 8 < 8 := Nat.mod_lt _ (by norm_num)
  simp only [betweenSquares] at ht
  split_ifs at ht <;>
    first
      | omega
      | (simp only [List.mem_map, List.mem_range] at ht
         obtain ⟨i, hi, rfl⟩ := ht
         exact ⟨i, by omega, by omega⟩)

theorem between_tr (center j : Nat) (hj : j < min (center / 8) (7 - center % 8)) :
    ∀ t ∈ betweenSquares center (center - 7 * (j + 1)),
      ∃ i, i < j ∧ t = center - 7 * (i + 1) := by
  intro t ht
  rw [Nat.lt_min] at hj
  have hdm := Nat.div_add_mod center 8
  have hf : center % 8 < 8 := Nat.mod_lt _ (by norm_num)
  simp only [betweenSquares] at ht
  split_ifs at ht <;>
    first
      | omega
      | (simp only [List.mem_map, List.mem_range] at ht
         obtain ⟨i, hi, rfl⟩ := ht
         exact ⟨i, by omega, by omega⟩)

theorem between_bl (center j : Nat) (hj : j < min (7 - center / 8) (center % 8)) :
    ∀ t ∈ betweenSquares center (center + 7 * (j + 1)),
      ∃ i, i < j ∧ t = center + 7 * (i + 1) := by
  intro t ht
  rw [Nat.lt_min] at hj
  have hdm := Nat.div_add_mod center 8
  have hf : center % 8 < 8 := Nat.mod_lt _ (by norm_num)
  simp only [betweenSquares] at ht
  split_ifs at ht <;>
    first
      | omega
      | (simp only [List.mem_map, List.mem_range] at ht
         obtain ⟨i, hi, rfl⟩ := ht
         exact ⟨i, by omega, by omega⟩)

theorem between_br (center j : Nat) (hj : j < min (7 - center / 8) (7 - center % 8)) :
    ∀ t ∈ betweenSquares center (center + 9 * (j + 1)),
      ∃ i, i < j ∧ t = center + 9 * (i + 1) := by
  intro t ht
  rw [Nat.lt_min] at hj
  have hdm := Nat.div_add_mod center 8
  have hf : center % 8 < 8 := Nat.mod_lt _ (by norm_num)
  simp only [betweenSquares] at ht
  split_ifs at ht <;>
    first
      | omega
      | (simp only [List.mem_map, List.mem_range] at ht
         obtain ⟨i, hi, rfl⟩ := ht
         exact ⟨i, by omega, by omega⟩)

theorem between_up (center j : Nat) (hj : j < 8 - (center / 8 + 1)) :
    ∀ t ∈ betweenSquares center ((center / 8 + 1 + j) * 8 + center % 8),
      ∃ i, i < j ∧ t = (center / 8 + 1 + i) * 8 + center % 8 := by
  intro t ht
  have hdm := Nat.div_add_mod center 8
  have hf : center % 8 < 8 := Nat.mod_lt _ (by norm_num)
  simp only [betweenSquares] at ht
  split_ifs at ht <;>
    first
      | omega
      | (simp only [List.mem_map, List.mem_range] at ht
         obtain ⟨i, hi, rfl⟩ := ht
         exact ⟨i, by omega, by omega⟩)

theorem between_down (center j : Nat) (hj : j < center / 8) :
    ∀ t ∈ betweenSquares center ((center / 8 - 1 - j) * 8 + center % 8),
      ∃ i, i < j ∧ t = (center / 8 - 1 - i) * 8 + center % 8 := by
  intro t ht
  have hdm := Nat.div_add_mod center 8
  have hf : center % 8 < 8 := Nat.mod_lt _ (by norm_num)
  simp only [betweenSquares] at ht
  split_ifs at ht <;>
    first
      | omega
      | (simp only [List.mem_map, List.mem_range] at ht
         obtain ⟨i, hi, rfl⟩ := ht
         exact ⟨j - 1 - i, by omega, by omega⟩)

theorem between_right (center j : Nat) (hj : j < 8 - (center % 8 + 1)) :
    ∀ t ∈ betweenSquares center ((center / 8) * 8 + (center % 8 + 1 + j)),
      ∃ i, i < j ∧ t = (center / 8) * 8 + (center % 8 + 1 + i) := by
  intro t ht
  have hdm := Nat.div_add_mod center 8
  have hf : center % 8 < 8 := Nat.mod_lt _ (by norm_num)
  simp only [betweenSquares] at ht
  split_ifs at ht <;>
    first
      | omega
      | (simp only [List.mem_map, List.mem_range] at ht
         obtain ⟨i, hi, rfl⟩ := ht
         exact ⟨i, by omega, by omega⟩)

theorem between_left (center j : Nat) (hj : j < center % 8) :
    ∀ t ∈ betweenSquares center ((center / 8) * 8 + (center % 8 - 1 - j)),
      ∃ i, i < j ∧ t = (center / 8) * 8 + (center % 8 - 1 - i) := by
  intro t ht
  have hdm := Nat.div_add_mod center 8
  have hf : center % 8 < 8 := Nat.mod_lt _ (by norm_num)
  simp only [betweenSquares] at ht
  split_ifs at ht <;>
    first
      | omega
      | (simp only [List.mem_map, List.mem_range] at ht
         obtain ⟨i, hi, rfl⟩ := ht
         exact ⟨j - 1 - i, by omega, by omega⟩)

theorem rayDir_between (s : GameState) (c : PieceColor) (center : Nat)
    (steps : Nat) (f : Nat → Nat) (ms : List Move)
    (h : rayCast s c center ((List.range steps).map f) = some ms)
    (hbetween : ∀ j, j < steps → ∀ t ∈ betweenSquares center (f j), ∃ i, i < j ∧ t = f i)
    (m : Move) (hm : m ∈ ms) :
    m.fromPos = center ∧ dstSafe s c m ∧
      ∀ t ∈ betweenSquares center (Move.toPos m), boardGet s.board t = some none := by
  obtain ⟨j, t, hjget, hfrom, hto, hsafe, hpre⟩ := rayCast_mem s c center _ _ h m hm
  rw [get?_range_map] at hjget
  split at hjget
  · rename_i hjs
    cases Option.some.inj hjget
    refine ⟨hfrom, hsafe, ?_⟩
    rw [hto]
    intro t2 ht2
    obtain ⟨i, hi, rfl⟩ := hbetween j hjs t2 ht2
    apply hpre i hi
    rw [get?_range_map]
    rw [if_pos (by omega)]
  · cases hjget

theorem makeBischopMoves_mem (center : Nat) (s : GameState) (c : PieceColor)
    (ms : List Move) (h : makeBischopMoves center s c = some ms) (m : Move) (hm : m ∈ ms) :
    m.fromPos = center ∧ dstSafe s c m ∧
      ∀ t ∈ betweenSquares center (Move.toPos m), boardGet s.board t = some none := by
  unfold makeBischopMoves at h
  split at h
  · cases h
  rename_i tl htl
  split at h
  · cases h
  rename_i tr htr
  split at h
  · cases h
  rename_i bl hbl
  split at h
  · cases h
  rename_i br hbr
  cases h
  rcases List.mem_append.mp hm with hm3 | hm4
  · rcases List.mem_append.mp hm3 with hm2 | hm3
    · rcases List.mem_append.mp hm2 with hm1 | hm2
      · exact rayDir_between s c center _ _ _ htl (fun j hj => between_tl center j hj) m hm1
      · exact rayDir_between s c center _ _ _ htr (fun j hj => between_tr center j hj) m hm2
    · exact rayDir_between s c center _ _ _ hbl (fun j hj => between_bl center j hj) m hm3
  · exact rayDir_between s c center _ _ _ hbr (fun j hj => between_br center j hj) m hm4

theorem makeRookMoves_mem (center : Nat) (s : GameState) (c : PieceColor)
    (ms : List Move) (h : makeRookMoves center s c = some ms) (m : Move) (hm : m ∈ ms) :
    m.fromPos = center ∧ dstSafe s c m ∧
      ∀ t ∈ betweenSquares center (Move.toPos m), boardGet s.board t = some none := by
  unfold makeRookMoves at h
  split at h
  · cases h
  rename_i up hup
  split at h
  · cases h
  rename_i down hdown
  split at h
  · cases h
  rename_i right hright
  split at h
  · cases h
  rename_i left hleft
  cases h
  rcases List.mem_append.mp hm with hm3 | hm4
  · rcases List.mem_append.mp hm3 with hm2 | hm3
    · rcases List.mem_append.mp hm2 with hm1 | hm2
      · exact rayDir_between s c center _ _ _ hup (fun j hj => between_up center j hj) m hm1
      · exact rayDir_between s c center _ _ _ hdown (fun j hj => between_down center j hj) m hm2
    · exact rayDir_between s c center _ _ _ hright (fun j hj => between_right center j hj) m hm3
  · exact rayDir_between s c center _ _ _ hleft (fun j hj => between_left center j hj) m hm4

theorem makeQueenMoves_mem (center : Nat) (s : GameState) (c : PieceColor)
    (ms : List Move) (h : makeQueenMoves center s c = some ms) (m : Move) (hm : m ∈ ms) :
    m.fromPos = center ∧ dstSafe s c m ∧
      ∀ t ∈ betweenSquares center (Move.toPos m), boardGet s.board t = some none := by
  unfold makeQueenMoves at h
  split at h
  · cases h
  rename_i b hb
  split at h
  · cases h
  rename_i r hr
  cases h
  rcases List.mem_append.mp hm with hm1 | hm2
  · exact makeBischopMoves_mem center s c b hb m hm1
  · exact makeRookMoves_mem center s c r hr m hm2

theorem makeKnightMoves_mem (center : Nat) (s : GameState) (c : PieceColor)
    (ms : List Move) (h : makeKnightMoves center s c = some ms) (m : Move) (hm : m ∈ ms) :
    m.fromPos = center ∧ dstSafe s c m := by
  simp only [makeKnightMoves] at h
  obtain ⟨x1, y1, ha1, hq1, rfl⟩ := optCat_eq_some _ _ _ h
  rcases List.mem_append.mp hm with hx | hm1
  · exact addIf_mem _ _ _ _ _ _ ha1 m hx
  obtain ⟨x2, y2, ha2, hq2, rfl⟩ := optCat_eq_some _ _ _ hq1
  rcases List.mem_append.mp hm1 with hx | hm2
  · exact addIf_mem _ _ _ _ _ _ ha2 m hx
  obtain ⟨x3, y3, ha3, hq3, rfl⟩ := optCat_eq_some _ _ _ hq2
  rcases List.mem_append.mp hm2 with hx | hm3
  · exact addIf_mem _ _ _ _ _ _ ha3 m hx
  obtain ⟨x4, y4, ha4, hq4, rfl⟩ := optCat_eq_some _ _ _ hq3
  rcases List.mem_append.mp hm3 with hx | hm4
  · exact addIf_mem _ _ _ _ _ _ ha4 m hx
  obtain ⟨x5, y5, ha5, hq5, rfl⟩ := optCat_eq_some _ _ _ hq4
  rcases List.mem_append.mp hm4 with hx | hm5
  · exact addIf_mem _ _ _ _ _ _ ha5 m hx
  obtain ⟨x6, y6, ha6, hq6, rfl⟩ := optCat_eq_some _ _ _ hq5
  rcases List.mem_append.mp hm5 with hx | hm6
  · exact addIf_mem _ _ _ _ _ _ ha6 m hx
  obtain ⟨x7, y7, ha7, hq7, rfl⟩ := optCat_eq_some _ _ _ hq6
  rcases List.mem_append.mp hm6 with hx | hm7
  · exact addIf_mem _ _ _ _ _ _ ha7 m hx
  · exact addIf_mem _ _ _ _ _ _ hq7 m hm7

theorem makeKingMoves_mem (center : Nat) (s : GameState) (c : PieceColor)
    (ms : List Move) (h : makeKingMoves center s c = some ms) (m : Move) (hm : m ∈ ms) :
    m.fromPos = center ∧ dstSafe s c m := by
  simp only [makeKingMoves] at h
  obtain ⟨x1, y1, ha1, hq1, rfl⟩ := optCat_eq_some _ _ _ h
  rcases List.mem_append.mp hm with hx | hm1
  · exact addIf_mem _ _ _ _ _ _ ha1 m hx
  obtain ⟨x2, y2, ha2, hq2, rfl⟩ := optCat_eq_some _ _ _ hq1
  rcases List.mem_append.mp hm1 with hx | hm2
  · exact addIf_mem _ _ _ _ _ _ ha2 m hx
  obtain ⟨x3, y3, ha3, hq3, rfl⟩ := optCat_eq_some _ _ _ hq2
  rcases List.mem_append.mp hm2 with hx | hm3
  · exact addIf_mem _ _ _ _ _ _ ha3 m hx
  obtain ⟨x4, y4, ha4, hq4, rfl⟩ := optCat_eq_some _ _ _ hq3
  rcases List.mem_append.mp hm3 with hx | hm4
  · exact addIf_mem _ _ _ _ _ _ ha4 m hx
  obtain ⟨x5, y5, ha5, hq5, rfl⟩ := optCat_eq_some _ _ _ hq4
  rcases List.mem_append.mp hm4 with hx | hm5
  · exact addIf_mem _ _ _ _ _ _ ha5 m hx
  obtain ⟨x6, y6, ha6, hq6, rfl⟩ := optCat_eq_some _ _ _ hq5
  rcases List.mem_append.mp hm5 with hx | hm6
  · exact addIf_mem _ _ _ _ _ _ ha6 m hx
  obtain ⟨x7, y7, ha7, hq7, rfl⟩ := optCat_eq_some _ _ _ hq6
  rcases List.mem_append.mp hm6 with hx | hm7
  · exact addIf_mem _ _ _ _ _ _ ha7 m hx
  · exact addIf_mem _ _ _ _ _ _ hq7 m hm7

theorem makePawnPushes_from (center : Nat) (s : GameState) (info : PawnMoveInfo)
    (ms : List Move) (h : makePawnPushes center s info = some ms) :
    ∀ m ∈ ms, Move.fromPos m = center := by
  simp only [makePawnPushes] at h
  split at h
  · cases h
  · cases h
    simp
  · split at h
    · cases h
    · rename_i dbl hdbl
      cases h
      intro m hm
      rcases List.mem_append.mp hm with hm | hm
      · split at hdbl
        · split at hdbl
          · cases hdbl
          · cases hdbl
            rw [List.mem_singleton] at hm
            subst hm
            rfl
          · cases hdbl
            cases hm
        · cases hdbl
          cases hm
      · split at hm
        · simp only [makePawnPromotions, List.mem_cons, List.not_mem_nil, or_false] at hm
          rcases hm with rfl | rfl | rfl | rfl <;> rfl
        · rw [List.mem_singleton] at hm
          subst hm
          rfl

theorem pawnCaptureSide_from (center : Nat) (s : GameState) (info : PawnMoveInfo)
    (guard : Bool) (target epCaptured : Nat) (ms : List Move)
    (h : pawnCaptureSide center s info guard target epCaptured = some ms) :
    ∀ m ∈ ms, Move.fromPos m = center := by
  simp only [pawnCaptureSide] at h
  repeat' split at h
  all_goals cases h
  all_goals simp [makePawnPromotionCaptures, Move.fromPos]

theorem makePawnMoves_from (center : Nat) (s : GameState) (info : PawnMoveInfo)
    (ms : List Move) (h : makePawnMoves center s info = some ms) :
    ∀ m ∈ ms, Move.fromPos m = center := by
  simp only [makePawnMoves, makePawnCaptures] at h
  obtain ⟨x, y, hx, hy, rfl⟩ := optCat_eq_some _ _ _ h
  obtain ⟨y1, y2, hy1, hy2, rfl⟩ := optCat_eq_some _ _ _ hy
  intro m hm
  rcases List.mem_append.mp hm with hm | hm
  · exact makePawnPushes_from center s info x hx m hm
  rcases List.mem_append.mp hm with hm | hm
  · exact pawnCaptureSide_from center s info _ _ _ y1 hy1 m hm
  · exact pawnCaptureSide_from center s info _ _ _ y2 hy2 m hm

theorem makeCastleMoves_mem (s : GameState) (c : PieceColor) (ms : List Move)
    (h : makeCastleMoves s c = some ms) (m : Move) (hm : m ∈ ms) :
    m.fromPos = (if c = PieceColor.White then 4 else 60) ∧
    ((m.toPos = 6 ∧ boardGet s.board 5 = some none ∧ boardGet s.board 6 = some none) ∨
     (m.toPos = 2 ∧ boardGet s.board 3 = some none ∧ boardGet s.board 2 = some none ∧
       boardGet s.board 1 = some none)) := by
  simp only [makeCastleMoves] at h
  obtain ⟨x, y, hx, hy, rfl⟩ := optCat_eq_some _ _ _ h
  rcases List.mem_append.mp hm with hmx | hmy
  · split at hx
    · split at hx
      · cases hx
      · cases hx
        cases hmx
      · rename_i h5
        split at hx
        · cases hx
        · cases hx
          cases hmx
        · rename_i h6
          cases hx
          rw [List.mem_singleton] at hmx
          subst hmx
          refine ⟨?_, Or.inl ⟨rfl, h5, h6⟩⟩
          simp [Move.fromPos]
    · cases hx
      cases hmx
  · split at hy
    · split at hy
      · cases hy
      · cases hy
        cases hmy
      · rename_i h3
        split at hy
        · cases hy
        · cases hy
          cases hmy
        · rename_i h2
          split at hy
          · cases hy
          · cases hy
            cases hmy
          · rename_i h1
            cases hy
            rw [List.mem_singleton] at hmy
            subst hmy
            refine ⟨?_, Or.inr ⟨rfl, h3, h2, h1⟩⟩
            simp [Move.fromPos]
    · cases hy
      cases hmy

theorem getMovesAux_mem (s : GameState) (c : PieceColor) (l : List (Option Piece))
    (i : Nat) (ms : List Move) (h : getMovesAux s c l i = some ms)
    (m : Move) (hm : m ∈ ms) :
    ∃ j sq msj, List.get? l j = some sq ∧
      getMovesForSquare sq (i + j) s c = some msj ∧ m ∈ msj := by
  induction l generalizing i ms with
  | nil =>
    rw [getMovesAux] at h
    cases h
    cases hm
  | cons sq rest ih =>
    rw [getMovesAux] at h
    split at h
    · cases h
    · rename_i ms0 h0
      split at h
      · cases h
      · rename_i more hmore
        cases h
        rcases List.mem_append.mp hm with hm0 | hmr
        · exact ⟨0, sq, ms0, rfl, by simpa using h0, hm0⟩
        · obtain ⟨j, sq2, msj, hj, hsq, hmj⟩ := ih (i + 1) more hmore hmr
          refine ⟨j + 1, sq2, msj, by simpa using hj, ?_, hmj⟩
          rw [show i + (j + 1) = i + 1 + j by omega]
          exact hsq

/-- C7: every move generated by `get_moves` for a non-pawn piece has no
friendly piece on its destination (part a), and every move generated from a
square holding a bishop, rook or queen has an empty path strictly between its
source and destination (part b). -/
theorem c7_destinations_and_paths (s : GameState) (c : PieceColor) (ms : List Move)
    (h : getMoves s c = some ms) (m : Move) (hm : m ∈ ms) :
    ((∀ p : Piece, boardGet s.board (Move.fromPos m) = some (some p) →
        p.kind ≠ PieceKind.Pawn) →
      ∀ q : Piece, boardGet s.board (Move.toPos m) = some (some q) → q.color ≠ c) ∧
    (∀ p : Piece, boardGet s.board (Move.fromPos m) = some (some p) →
      (p.kind = PieceKind.Bishop ∨ p.kind = PieceKind.Rook ∨ p.kind = PieceKind.Queen) →
      ∀ t ∈ betweenSquares (Move.fromPos m) (Move.toPos m),
        boardGet s.board t = some none) := by
  unfold getMoves at h
  split at h
  · cases h
  rename_i base hbase
  split at h
  · cases h
  rename_i castles hcastles
  cases h
  rcases List.mem_append.mp hm with hmb | hmc
  · obtain ⟨j, sq, msj, hj, hsq, hmj⟩ := getMovesAux_mem s c s.board 0 base hbase m hmb
    rw [Nat.zero_add] at hsq
    have hbj : boardGet s.board j = some sq := hj
    unfold getMovesForSquare at hsq
    split at hsq
    · cases hsq
      cases hmj
    · rename_i piece
      split at hsq
      · cases hsq
        cases hmj
      · rename_i hcol
        rw [not_not] at hcol
        split at hsq
        case _ hk =>
          -- Pawn
          have hfrom := makePawnMoves_from j s (PawnMoveInfo.new c) msj hsq m hmj
          constructor
          · intro hnp
            exact absurd hk (hnp piece (by rw [hfrom]; exact hbj))
          · intro p hp hbrq
            rw [hfrom, hbj] at hp
            cases Option.some.inj (Option.some.inj hp)
            rw [hk] at hbrq
            rcases hbrq with h' | h' | h' <;> cases h'
        case _ hk =>
          -- Knight
          obtain ⟨hfrom, hsafe⟩ := makeKnightMoves_mem j s c msj hsq m hmj
          constructor
          · exact fun _ => hsafe
          · intro p hp hbrq
            rw [hfrom, hbj] at hp
            cases Option.some.inj (Option.some.inj hp)
            rw [hk] at hbrq
            rcases hbrq with h' | h' | h' <;> cases h'
        case _ hk =>
          -- Bishop
          obtain ⟨hfrom, hsafe, hpath⟩ := makeBischopMoves_mem j s c msj hsq m hmj
          constructor
          · exact fun _ => hsafe
          · intro p hp hbrq t ht
            rw [hfrom] at ht
            exact hpath t ht
        case _ hk =>
          -- Rook
          obtain ⟨hfrom, hsafe, hpath⟩ := makeRookMoves_mem j s c msj hsq m hmj
          constructor
          · exact fun _ => hsafe
          · intro p hp hbrq t ht
            rw [hfrom] at ht
            exact hpath t ht
        case _ hk =>
          -- Queen
          obtain ⟨hfrom, hsafe, hpath⟩ := makeQueenMoves_mem j s c msj hsq m hmj
          constructor
          · exact fun _ => hsafe
          · intro p hp hbrq t ht
            rw [hfrom] at ht
            exact hpath t ht
        case _ hk =>
          -- King
          obtain ⟨hfrom, hsafe⟩ := makeKingMoves_mem j s c msj hsq m hmj
          constructor
          · exact fun _ => hsafe
          · intro p hp hbrq
            rw [hfrom, hbj] at hp
            cases Option.some.inj (Option.some.inj hp)
            rw [hk] at hbrq
            rcases hbrq with h' | h' | h' <;> cases h'
  · obtain ⟨hfrom, hdst⟩ := makeCastleMoves_mem s c castles hcastles m hmc
    constructor
    · intro _ q hq
      rcases hdst with ⟨hto, h5, h6⟩ | ⟨hto, h3, h2, h1⟩
      · rw [hto, h6] at hq
        cases hq
      · rw [hto, h2] at hq
        cases hq
    · intro p hp hbrq t ht
      cases c with
      | White =>
        simp only [reduceIte] at hfrom
        rcases hdst with ⟨hto, h5, h6⟩ | ⟨hto, h3, h2, h1⟩
        · rw [hfrom, hto, show betweenSquares 4 6 = [5] from by decide,
              List.mem_singleton] at ht
          subst ht
          exact h5
        · rw [hfrom, hto, show betweenSquares 4 2 = [3] from by decide,
              List.mem_singleton] at ht
          subst ht
          exact h3
      | Black =>
        rw [if_neg (by decide)] at hfrom
        rcases hdst with ⟨hto, h5, h6⟩ | ⟨hto, h3, h2, h1⟩
        · rw [hfrom, hto, show betweenSquares 60 6 = [] from by decide] at ht
          cases ht
        · rw [hfrom, hto, show betweenSquares 60 2 = [] from by decide] at ht
          cases ht

theorem c7_witness :
    getMoves c7WState PieceColor.White = some c7WMoves ∧
    Move.Capture 0 3 ⟨PieceKind.Pawn, PieceColor.Black⟩ ∈ c7WMoves ∧
    ((∀ p : Piece, boardGet c7WState.board
        (Move.fromPos (Move.Capture 0 3 ⟨PieceKind.Pawn, PieceColor.Black⟩)) =
          some (some p) → p.kind ≠ PieceKind.Pawn) →
      ∀ q : Piece, boardGet c7WState.board
        (Move.toPos (Move.Capture 0 3 ⟨PieceKind.Pawn, PieceColor.Black⟩)) =
          some (some q) → q.color ≠ PieceColor.White) ∧
    (∀ p : Piece, boardGet c7WState.board
        (Move.fromPos (Move.Capture 0 3 ⟨PieceKind.Pawn, PieceColor.Black⟩)) =
          some (some p) →
      (p.kind = PieceKind.Bishop ∨ p.kind = PieceKind.Rook ∨ p.kind = PieceKind.Queen) →
      ∀ t ∈ betweenSquares
          (Move.fromPos (Move.Capture 0 3 ⟨PieceKind.Pawn, PieceColor.Black⟩))
          (Move.toPos (Move.Capture 0 3 ⟨PieceKind.Pawn, PieceColor.Black⟩)),
        boardGet c7WState.board t = some none) := by
  have h : getMoves c7WState PieceColor.White = some c7WMoves := by decide
  have hm : Move.Capture 0 3 ⟨PieceKind.Pawn, PieceColor.Black⟩ ∈ c7WMoves := by decide
  exact ⟨h, hm,
    (c7_destinations_and_paths c7WState PieceColor.White c7WMoves h _ hm).1,
    (c7_destinations_and_paths c7WState PieceColor.White c7WMoves h _ hm).2⟩

/-! ### FEN rank/file policy (C8) -/

theorem splitWsAux_append (p rest acc : List Char)
    (hp : ∀ ch ∈ p, isWs ch = false) :
    splitWsAux (p ++ rest) acc = splitWsAux rest (p.reverse ++ acc) := by
  induction p generalizing acc with
  | nil => simp
  | cons c p' ih =>
    have hc : isWs c = false := hp c (by simp)
    rw [List.cons_append, splitWsAux, hc]
    simp only [Bool.false_eq_true, if_false]
    rw [ih (c :: acc) (fun ch hch => hp ch (List.mem_cons_of_mem c hch))]
    simp

theorem lexFen_placement (p : List Char) (hne : p ≠ [])
    (hp : ∀ ch ∈ p, isWs ch = false) :
    lexFen (p ++ fenSuffix) =
      .ok (p.map lexBoardChar ++
        [FENToken.EndOfBoard, FENToken.Turn 'w',
         FENToken.HalfmoveClock 0, FENToken.FullmoveNumber 1]) := by
  obtain ⟨x, xs, hx⟩ : ∃ x xs, p.reverse = x :: xs := by
    cases hpr : p.reverse with
    | nil => exact absurd (by simpa using congrArg List.reverse hpr) hne
    | cons x xs => exact ⟨x, xs, rfl⟩
  have hsuffix : ∀ (y : Char) (ys : List Char), splitWsAux fenSuffix (y :: ys) =
      ((y :: ys).reverse) :: [['w'], ['-'], ['-'], ['0'], ['1']] := by
    intro y ys
    rfl
  have hsp : splitWs (p ++ fenSuffix) = p :: [['w'], ['-'], ['-'], ['0'], ['1']] := by
    rw [splitWs, splitWsAux_append p fenSuffix [] hp, List.append_nil]
    rw [hx, hsuffix x xs, ← hx, List.reverse_reverse]
  unfold lexFen
  rw [hsp]
  simp [parseUsize, decDigitsVal, isDecDigit]

theorem parse_slash_overflow (p : List Char) (ts : List FENToken)
    (rank file : Nat) (g : GameState) (hr : rank < p.count '/') :
    ∃ e, parseFenTokens (p.map lexBoardChar ++ ts) rank file g = .error e := by
  induction p generalizing rank file g with
  | nil => simp at hr
  | cons c cs ih =>
    rw [List.map_cons, List.cons_append]
    by_cases hd : '1' ≤ c ∧ c ≤ '8'
    · have hcs : c ≠ '/' := by
        rintro rfl
        exact absurd hd (by decide)
      rw [List.count_cons] at hr
      simp only [beq_iff_eq, hcs, if_false, Nat.add_zero] at hr
      rw [show lexBoardChar c = FENToken.Empty (c.toNat - 48) from by
        simp [lexBoardChar, hd]]
      simp only [parseFenTokens]
      split
      · exact ⟨_, rfl⟩
      · exact ih rank _ g hr
    · by_cases hs : c = '/'
      · subst hs
        simp only [List.count_cons, beq_iff_eq, if_pos rfl, reduceIte] at hr
        rw [show lexBoardChar '/' = FENToken.EndOfRank from by decide]
        simp only [parseFenTokens]
        split
        · exact ⟨_, rfl⟩
        · exact ih (rank - 1) 0 g (by omega)
      · rw [List.count_cons] at hr
        simp only [beq_iff_eq, hs, if_false, Nat.add_zero] at hr
        rw [show lexBoardChar c = FENToken.Piece c from by simp [lexBoardChar, hd, hs]]
        simp only [parseFenTokens]
        split
        · exact ⟨_, rfl⟩
        · split
          · exact ⟨_, rfl⟩
          · exact ih rank _ _ hr

theorem parse_slash_underflow (p : List Char) (ts : List FENToken)
    (rank file : Nat) (g : GameState) (hr : p.count '/' < rank) :
    ∃ e, parseFenTokens (p.map lexBoardChar ++ FENToken.EndOfBoard :: ts)
      rank file g = .error e := by
  induction p generalizing rank file g with
  | nil =>
    simp only [List.count_nil] at hr
    rw [List.map_nil, List.nil_append]
    simp only [parseFenTokens]
    split
    · exact ⟨_, rfl⟩
    · omega
  | cons c cs ih =>
    rw [List.map_cons, List.cons_append]
    by_cases hd : '1' ≤ c ∧ c ≤ '8'
    · have hcs : c ≠ '/' := by
        rintro rfl
        exact absurd hd (by decide)
      rw [List.count_cons] at hr
      simp only [beq_iff_eq, hcs, if_false, Nat.add_zero] at hr
      rw [show lexBoardChar c = FENToken.Empty (c.toNat - 48) from by
        simp [lexBoardChar, hd]]
      simp only [parseFenTokens]
      split
      · exact ⟨_, rfl⟩
      · exact ih rank _ g hr
    · by_cases hs : c = '/'
      · subst hs
        simp only [List.count_cons, beq_iff_eq, if_pos rfl, reduceIte] at hr
        rw [show lexBoardChar '/' = FENToken.EndOfRank from by decide]
        simp only [parseFenTokens]
        split
        · exact ⟨_, rfl⟩
        · exact ih (rank - 1) 0 g (by omega)
      · rw [List.count_cons] at hr
        simp only [beq_iff_eq, hs, if_false, Nat.add_zero] at hr
        rw [show lexBoardChar c = FENToken.Piece c from by simp [lexBoardChar, hd, hs]]
        simp only [parseFenTokens]
        split
        · exact ⟨_, rfl⟩
        · split
          · exact ⟨_, rfl⟩
          · exact ih rank _ _ hr

theorem groupSums_head_ge (cs : List Char) (cur : Nat) :
    ∃ r ∈ groupSums cs cur, cur ≤ r := by
  induction cs generalizing cur with
  | nil => exact ⟨cur, by simp [groupSums], le_refl _⟩
  | cons c cs ih =>
    by_cases hs : c = '/'
    · subst hs
      refine ⟨cur, ?_, le_refl _⟩
      rw [groupSums]
      simp
    · obtain ⟨r, hr, hcr⟩ := ih (cur + charWidth c)
      refine ⟨r, ?_, by omega⟩
      rw [groupSums]
      simp only [hs, if_false]
      exact hr

theorem parse_file_overflow (p : List Char) (ts : List FENToken)
    (rank file : Nat) (g : GameState) (hf : file ≤ 8)
    (hov : ∃ r ∈ groupSums p file, 8 < r) :
    ∃ e, parseFenTokens (p.map lexBoardChar ++ ts) rank file g = .error e := by
  induction p generalizing rank file g with
  | nil =>
    obtain ⟨r, hr, h8⟩ := hov
    rw [groupSums] at hr
    rw [List.mem_singleton] at hr
    omega
  | cons c cs ih =>
    rw [List.map_cons, List.cons_append]
    by_cases hd : '1' ≤ c ∧ c ≤ '8'
    · have hcs : c ≠ '/' := by
        rintro rfl
        exact absurd hd (by decide)
      have hsum : groupSums (c :: cs) file = groupSums cs (file + (c.toNat - 48)) := by
        rw [groupSums]
        simp [hcs, charWidth, hd]
      rw [hsum] at hov
      rw [show lexBoardChar c = FENToken.Empty (c.toNat - 48) from by
        simp [lexBoardChar, hd]]
      simp only [parseFenTokens]
      split
      · exact ⟨_, rfl⟩
      · rename_i hle
        exact ih rank _ g (by omega) hov
    · by_cases hs : c = '/'
      · subst hs
        have hsum : groupSums ('/' :: cs) file = file :: groupSums cs 0 := by
          rw [groupSums]
          simp
        rw [hsum] at hov
        rw [show lexBoardChar '/' = FENToken.EndOfRank from by decide]
        simp only [parseFenTokens]
        split
        · exact ⟨_, rfl⟩
        · refine ih (rank - 1) 0 g (by omega) ?_
          obtain ⟨r, hr, h8⟩ := hov
          rcases List.mem_cons.mp hr with rfl | hr
          · omega
          · exact ⟨r, hr, h8⟩
      · have hsum : groupSums (c :: cs) file = groupSums cs (file + 1) := by
          rw [groupSums]
          simp [hs, charWidth, hd]
        rw [hsum] at hov
        rw [show lexBoardChar c = FENToken.Piece c from by simp [lexBoardChar, hd, hs]]
        simp only [parseFenTokens]
        split
        · exact ⟨_, rfl⟩
        · rename_i hle
          split
          · exact ⟨_, rfl⟩
          · exact ih rank _ _ (by omega) hov

theorem parse_placement_ok (p : List Char) (rank file : Nat) (g : GameState)
    (hall : ∀ r ∈ groupSums p file, r ≤ 8) (hsl : p.count '/' = rank)
    (hpieces : ∀ ch ∈ p, ch ≠ '/' → ¬('1' ≤ ch ∧ ch ≤ '8') → validPieceChar ch = true) :
    ∃ g2, parseFenTokens (p.map lexBoardChar ++
      [FENToken.EndOfBoard, FENToken.Turn 'w',
       FENToken.HalfmoveClock 0, FENToken.FullmoveNumber 1]) rank file g = .ok g2 := by
  induction p generalizing rank file g with
  | nil =>
    simp only [List.count_nil] at hsl
    subst hsl
    exact ⟨_, rfl⟩
  | cons c cs ih =>
    rw [List.map_cons, List.cons_append]
    by_cases hd : '1' ≤ c ∧ c ≤ '8'
    · have hcs : c ≠ '/' := by
        rintro rfl
        exact absurd hd (by decide)
      rw [List.count_cons] at hsl
      simp only [beq_iff_eq, hcs, if_false, Nat.add_zero] at hsl
      have hsum : groupSums (c :: cs) file = groupSums cs (file + (c.toNat - 48)) := by
        rw [groupSums]
        simp [hcs, charWidth, hd]
      rw [hsum] at hall
      have hle : file + (c.toNat - 48) ≤ 8 := by
        obtain ⟨r, hr, hge⟩ := groupSums_head_ge cs (file + (c.toNat - 48))
        have := hall r hr
        omega
      rw [show lexBoardChar c = FENToken.Empty (c.toNat - 48) from by
        simp [lexBoardChar, hd]]
      simp only [parseFenTokens]
      split
      · omega
      · exact ih rank _ g hall hsl
          (fun ch hch => hpieces ch (List.mem_cons_of_mem c hch))
    · by_cases hs : c = '/'
      · subst hs
        simp only [List.count_cons, beq_iff_eq, if_pos rfl, reduceIte] at hsl
        have hsum : groupSums ('/' :: cs) file = file :: groupSums cs 0 := by
          rw [groupSums]
          simp
        rw [hsum] at hall
        rw [show lexBoardChar '/' = FENToken.EndOfRank from by decide]
        simp only [parseFenTokens]
        split
        · omega
        · exact ih (rank - 1) 0 g (fun r hr => hall r (List.mem_cons_of_mem _ hr))
            (by omega) (fun ch hch => hpieces ch (List.mem_cons_of_mem _ hch))
      · rw [List.count_cons] at hsl
        simp only [beq_iff_eq, hs, if_false, Nat.add_zero] at hsl
        have hsum : groupSums (c :: cs) file = groupSums cs (file + 1) := by
          rw [groupSums]
          simp [hs, charWidth, hd]
        rw [hsum] at hall
        have hle : file + 1 ≤ 8 := by
          obtain ⟨r, hr, hge⟩ := groupSums_head_ge cs (file + 1)
          have := hall r hr
          omega
        have hvalid : validPieceChar c = true := hpieces c (by simp) hs hd
        rw [validPieceChar, Option.isSome_iff_exists] at hvalid
        obtain ⟨pc, hpc⟩ := hvalid
        rw [show lexBoardChar c = FENToken.Piece c from by simp [lexBoardChar, hd, hs]]
        simp only [parseFenTokens]
        split
        · omega
        · rw [hpc]
          exact ih rank _ _ hall hsl
            (fun ch hch => hpieces ch (List.mem_cons_of_mem c hch))

theorem fromFen_ok_lex (fen : List Char) (ts : List FENToken) (h : lexFen fen = .ok ts) :
    fromFen fen = parseFenTokens ts 7 0 GameState.empty := by
  unfold fromFen
  rw [h]

/-- C8: FEN rank/file policy of `from_fen`.  For any placement field (a
nonempty ASCII, whitespace-free character list) followed by valid remaining
fields: (1) a `/`-count other than 7 — i.e. fewer or more than 8 ranks —
yields a structured error; (2) a rank whose piece letters and empty-count
digits account for more than 8 files yields a structured error; (3) with
exactly 8 ranks, every rank total ≤ 8 and only valid piece letters, parsing
succeeds — in particular ranks accounting for fewer than 8 files are
accepted; (4) the repository's leniency example: the short-rank placement
parses identically to the fully-specified one, and without error (unspecified
trailing files are empty squares). -/
theorem c8_fen_rank_file_policy :
    (∀ p : List Char, p ≠ [] → (∀ ch ∈ p, ch.toNat < 128 ∧ isWs ch = false) →
      p.count '/' ≠ 7 → isErr (fromFen (p ++ fenSuffix)) = true) ∧
    (∀ p : List Char, p ≠ [] → (∀ ch ∈ p, ch.toNat < 128 ∧ isWs ch = false) →
      (∃ r ∈ rankSums p, 8 < r) → isErr (fromFen (p ++ fenSuffix)) = true) ∧
    (∀ p : List Char, p ≠ [] → (∀ ch ∈ p, ch.toNat < 128 ∧ isWs ch = false) →
      p.count '/' = 7 → (∀ r ∈ rankSums p, r ≤ 8) →
      (∀ ch ∈ p, ch ≠ '/' → ¬('1' ≤ ch ∧ ch ≤ '8') → validPieceChar ch = true) →
      ∃ g, fromFen (p ++ fenSuffix) = .ok g) ∧
    fromFen (("p7/1p/2p/3p/4p/5p/6p/8 w - - 0 0").toList) =
      fromFen (("p7/1p6/2p5/3p4/4p3/5p2/6p1/ w - - 0 0").toList) ∧
    isErr (fromFen (("p7/1p/2p/3p/4p/5p/6p/8 w - - 0 0").toList)) = false := by
  refine ⟨?_, ?_, ?_, by decide, by decide⟩
  · intro p hne hch hcount
    rw [fromFen_ok_lex _ _ (lexFen_placement p hne (fun ch h => (hch ch h).2))]
    rcases Nat.lt_or_ge 7 (p.count '/') with hgt | hge
    · obtain ⟨e, he⟩ := parse_slash_overflow p
        [FENToken.EndOfBoard, FENToken.Turn 'w',
         FENToken.HalfmoveClock 0, FENToken.FullmoveNumber 1] 7 0 GameState.empty hgt
      rw [he]
      rfl
    · obtain ⟨e, he⟩ := parse_slash_underflow p
        [FENToken.Turn 'w', FENToken.HalfmoveClock 0, FENToken.FullmoveNumber 1]
        7 0 GameState.empty (by omega)
      rw [he]
      rfl
  · intro p hne hch hov
    rw [fromFen_ok_lex _ _ (lexFen_placement p hne (fun ch h => (hch ch h).2))]
    obtain ⟨e, he⟩ := parse_file_overflow p
      [FENToken.EndOfBoard, FENToken.Turn 'w',
       FENToken.HalfmoveClock 0, FENToken.FullmoveNumber 1] 7 0 GameState.empty
      (by omega) hov
    rw [he]
    rfl
  · intro p hne hch hcount hall hpieces
    rw [fromFen_ok_lex _ _ (lexFen_placement p hne (fun ch h => (hch ch h).2))]
    exact parse_placement_ok p 7 0 GameState.empty hall hcount hpieces

theorem c8_witness :
    ((("8/8").toList ≠ [] ∧ (("8/8").toList).count '/' ≠ 7) ∧
      isErr (fromFen (("8/8").toList ++ fenSuffix)) = true) ∧
    ((∃ r ∈ rankSums (("ppppppppp/8/8/8/8/8/8/8").toList), 8 < r) ∧
      isErr (fromFen (("ppppppppp/8/8/8/8/8/8/8").toList ++ fenSuffix)) = true) ∧
    ((("p/8/8/8/8/8/8/8").toList).count '/' = 7 ∧
      ∃ g, fromFen (("p/8/8/8/8/8/8/8").toList ++ fenSuffix) = .ok g) := by
  refine ⟨⟨⟨by decide, by decide⟩, ?_⟩, ⟨by decide, ?_⟩, ⟨by decide, ?_⟩⟩
  · exact c8_fen_rank_file_policy.1 (("8/8").toList) (by decide)
      (by decide) (by decide)
  · exact c8_fen_rank_file_policy.2.1 (("ppppppppp/8/8/8/8/8/8/8").toList) (by decide)
      (by decide) (by decide)
  · exact c8_fen_rank_file_policy.2.2.1 (("p/8/8/8/8/8/8/8").toList) (by decide)
      (by decide) (by decide) (by decide) (by decide)
